import Mathlib

set_option autoImplicit false

/-!
Shallow embedding of the which-vinyl album identity-matching and analysis core
(`src/utils/album-matcher.ts` and the pure aggregation section of the
collection-analysis tool handler), together with proofs about it.

Modelling conventions:
* JavaScript strings are modelled by Lean `String` / `List Char`; the character
  classes of the regexes involved (`\w`, `\s`) and `toLowerCase` are modelled on
  the ASCII range, which is the range the matching logic is exercised on.
* JavaScript numbers are modelled by `ℚ` (the scores are finite arithmetic on
  small fractions) and `Math.round` by `jsRound` below.
* `Map`/`Set`/`Record` objects are modelled by association lists and membership
  lists; only `get`/`set`/`has`/`add`/`keys` are used by the source.
-/

/-- Character class of the JavaScript regex class `\w`: ASCII letters, digits
and underscore. -/
def isWordChar (c : Char) : Bool := c.isAlphanum || c = '_'

/-- Character class of the JavaScript regex class `\s` (ASCII whitespace). -/
def isSpaceChar (c : Char) : Bool :=
  c = ' ' || c = '\t' || c = '\n' || c = '\r' || c = '\x0b' || c = '\x0c'

/-- Model of `String.prototype.toLowerCase` (ASCII range). -/
def lowerChars (l : List Char) : List Char := l.map Char.toLower

/-- Model of `.replace(/^the\s+/i, "")` applied after lowercasing: remove a
leading "the" followed by at least one whitespace character (and the whole
whitespace run, since `\s+` is greedy). -/
def stripLeadingThe (l : List Char) : List Char :=
  match l with
  | 't' :: 'h' :: 'e' :: c :: rest =>
      if isSpaceChar c then rest.dropWhile isSpaceChar
      else 't' :: 'h' :: 'e' :: c :: rest
  | other => other

/-- Model of `.replace(/[^\w\s]/g, "")`: keep only word and whitespace
characters. -/
def removeNonWordSpace (l : List Char) : List Char :=
  l.filter (fun c => isWordChar c || isSpaceChar c)

/-- Worker for `collapseWs`; the flag records whether the previously emitted
character came from a whitespace run (in which case further whitespace of the
same run is dropped). -/
def collapseWsAux : List Char → Bool → List Char
  | [], _ => []
  | c :: rest, prevSpace =>
    if isSpaceChar c then
      if prevSpace then collapseWsAux rest true
      else ' ' :: collapseWsAux rest true
    else c :: collapseWsAux rest false

/-- Model of `.replace(/\s+/g, " ")`: each maximal whitespace run becomes one
single blank. -/
def collapseWs (l : List Char) : List Char := collapseWsAux l false

/-- Model of `String.prototype.trim`. -/
def trimChars (l : List Char) : List Char :=
  ((l.dropWhile isSpaceChar).reverse.dropWhile isSpaceChar).reverse

/-- Embeds `normalizeArtist` from `album-matcher.ts`:
lowercase, strip a leading "The ", remove non word or space characters,
collapse whitespace, trim. -/
def normalizeArtist (name : String) : String :=
  ⟨trimChars (collapseWs (removeNonWordSpace (stripLeadingThe (lowerChars name.data))))⟩

/-- Attempt to match the regex `\s*\(.*?\)\s*` at the very start of the list:
leading whitespace, an opening parenthesis, a lazily matched span ended by the
first closing parenthesis (`.` does not cross a newline), then trailing
whitespace.  Returns the remainder after the match, or `none`. -/
def parenMatchAtHead (l : List Char) : Option (List Char) :=
  match l.dropWhile isSpaceChar with
  | '(' :: rest =>
    match rest.dropWhile (fun c => !(c = ')' || c = '\n')) with
    | ')' :: rest2 => some (rest2.dropWhile isSpaceChar)
    | _ => none
  | _ => none

/-- Fuelled worker for `removeParens`; fuel bounds the number of consumed
characters, so `l.length` is always enough. -/
def removeParensAux : Nat → List Char → List Char
  | 0, l => l
  | fuel + 1, l =>
    match parenMatchAtHead l with
    | some rem => removeParensAux fuel rem
    | none =>
      match l with
      | [] => []
      | c :: rest => c :: removeParensAux fuel rest

/-- Model of `.replace(/\s*\(.*?\)\s*/g, "")`: repeatedly delete the leftmost
parenthesized span together with surrounding whitespace. -/
def removeParens (l : List Char) : List Char := removeParensAux l.length l

/-- Same as `parenMatchAtHead` for the regex `\s*\[.*?\]\s*`. -/
def bracketMatchAtHead (l : List Char) : Option (List Char) :=
  match l.dropWhile isSpaceChar with
  | '[' :: rest =>
    match rest.dropWhile (fun c => !(c = ']' || c = '\n')) with
    | ']' :: rest2 => some (rest2.dropWhile isSpaceChar)
    | _ => none
  | _ => none

/-- Fuelled worker for `removeBrackets`. -/
def removeBracketsAux : Nat → List Char → List Char
  | 0, l => l
  | fuel + 1, l =>
    match bracketMatchAtHead l with
    | some rem => removeBracketsAux fuel rem
    | none =>
      match l with
      | [] => []
      | c :: rest => c :: removeBracketsAux fuel rest

/-- Model of `.replace(/\s*\[.*?\]\s*/g, "")`. -/
def removeBrackets (l : List Char) : List Char := removeBracketsAux l.length l

/-- The edition-qualifier words of the two trailing-clause regexes in
`normalizeAlbum`. -/
def editionWords : List (List Char) :=
  ["deluxe".data, "remaster".data, "remastered".data, "expanded".data,
   "anniversary".data, "edition".data, "special".data, "bonus".data,
   "mono".data, "stereo".data]

/-- Does `/\s*-\s*\d{4}\s*(deluxe|…|stereo).*$/` match starting exactly here?
`.*$` forces the match to reach the end of the string without crossing a
newline, so the whole suffix from the word on must be newline free. -/
def editionYearMatchAt (l : List Char) : Bool :=
  match l.dropWhile isSpaceChar with
  | '-' :: r1 =>
    match r1.dropWhile isSpaceChar with
    | d1 :: d2 :: d3 :: d4 :: r3 =>
      d1.isDigit && d2.isDigit && d3.isDigit && d4.isDigit &&
        (let r4 := r3.dropWhile isSpaceChar
         editionWords.any (fun w => w.isPrefixOf r4) && !(r4.contains '\n'))
    | _ => false
  | _ => false

/-- Model of `.replace(/\s*-\s*\d{4}\s*(deluxe|…|stereo).*$/i, "")`: drop
everything from the leftmost position where the pattern matches. -/
def stripEditionYear : List Char → List Char
  | [] => []
  | c :: rest =>
    if editionYearMatchAt (c :: rest) then [] else c :: stripEditionYear rest

/-- Does `/\s*-\s*(deluxe|…|stereo).*$/` match starting exactly here? -/
def editionMatchAt (l : List Char) : Bool :=
  match l.dropWhile isSpaceChar with
  | '-' :: r1 =>
    let r2 := r1.dropWhile isSpaceChar
    editionWords.any (fun w => w.isPrefixOf r2) && !(r2.contains '\n')
  | _ => false

/-- Model of `.replace(/\s*-\s*(deluxe|…|stereo).*$/i, "")`. -/
def stripEdition : List Char → List Char
  | [] => []
  | c :: rest =>
    if editionMatchAt (c :: rest) then [] else c :: stripEdition rest

/-- Embeds `normalizeAlbum` from `album-matcher.ts`: lowercase, remove
parenthesized and bracketed spans, remove trailing edition-qualifier clauses
(with and without a four digit year), remove non word or space characters,
collapse whitespace, trim. -/
def normalizeAlbum (title : String) : String :=
  ⟨trimChars (collapseWs (removeNonWordSpace (stripEdition (stripEditionYear
    (removeBrackets (removeParens (lowerChars title.data)))))))⟩

/-- One inner-loop pass of the Levenshtein matrix construction in
`album-matcher.ts`: given the character `bc = b.charAt(i-1)`, the rest of `a`,
the rest of the previous matrix row, the diagonal entry `matrix[i-1][j-1]` and
the entry to the left `matrix[i][j-1]`, produce the remaining entries of row
`i`. -/
def levRowAux (bc : Char) : List Char → List Nat → Nat → Nat → List Nat
  | [], _, _, _ => []
  | _ :: _, [], _, _ => []
  | ac :: arest, pj :: prest, diag, left =>
    let cur := if bc = ac then diag else min (diag + 1) (min (left + 1) (pj + 1))
    cur :: levRowAux bc arest prest pj cur

/-- Row `i` of the Levenshtein matrix, from row `i - 1`: the first entry is
`matrix[i][0] = i`. -/
def levFullRow (bc : Char) (a : List Char) (prevRow : List Nat) (i : Nat) : List Nat :=
  match prevRow with
  | [] => [i]
  | p0 :: prest => i :: levRowAux bc a prest p0 i

/-- Embeds `levenshteinDistance` from `album-matcher.ts`: builds the dynamic
programming matrix row by row over `b` (row 0 being `[0, 1, …, a.length]`) and
returns `matrix[b.length][a.length]`. -/
def levenshteinDistance (a b : String) : Nat :=
  let lastRow :=
    (b.data.foldl
      (fun st bc => (levFullRow bc a.data st.1 (st.2 + 1), st.2 + 1))
      (List.range (a.data.length + 1), 0)).1
  lastRow.getD a.data.length 0

/-- Embeds `stringSimilarity` from `album-matcher.ts`. -/
def stringSimilarity (a b : String) : ℚ :=
  if a = b then 1
  else if a.length = 0 || b.length = 0 then 0
  else 1 - (levenshteinDistance a b : ℚ) / (max a.length b.length : ℚ)

/-- Embeds the `SpotifyAlbum` interface of `album-matcher.ts`. -/
structure SpotifyAlbum where
  name : String
  artist : String
deriving DecidableEq, Repr

/-- Embeds the `DiscogsRelease` interface of `discogs-client.ts`. -/
structure DiscogsRelease where
  releaseId : String
  artist : String
  artists : List String
  album : String
  year : Option Int
  dateAdded : Option String
  thumb : Option String
  genres : List String
  styles : List String
  formats : List String
deriving DecidableEq, Repr

/-- The four values of the `matchType` string union in `album-matcher.ts`
("exact" is spelt `exact'` because `exact` is a Lean keyword). -/
inductive MatchType where
  | exact'
  | fuzzy
  | artist_only
  | no_match
deriving DecidableEq, Repr

/-- Embeds the `MatchResult` interface of `album-matcher.ts`. -/
structure MatchResult where
  spotifyAlbum : SpotifyAlbum
  discogsRelease : Option DiscogsRelease
  matchScore : ℚ
  matchType : MatchType
deriving DecidableEq, Repr

/-- The pair (artistScore, combined score) computed for one release inside the
loop of `matchAlbumToCollection`, given the candidate's already-normalized
artist `na` and album title `nb`. The combined score is
`artistScore * 0.4 + albumScore * 0.6`. -/
def releaseScores (na nb : String) (r : DiscogsRelease) : ℚ × ℚ :=
  let artistScore := stringSimilarity na (normalizeArtist r.artist)
  let albumScore := stringSimilarity nb (normalizeAlbum r.album)
  (artistScore, artistScore * (2 / 5) + albumScore * (3 / 5))

/-- The mutable loop state of `matchAlbumToCollection`. -/
structure BestState where
  bestMatch : Option DiscogsRelease
  bestScore : ℚ
  bestArtistScore : ℚ
deriving DecidableEq, Repr

/-- One iteration of the loop of `matchAlbumToCollection`: the state is
replaced only when the combined score strictly exceeds `bestScore`. -/
def matchStep (na nb : String) (s : BestState) (r : DiscogsRelease) : BestState :=
  let p := releaseScores na nb r
  if s.bestScore < p.2 then ⟨some r, p.2, p.1⟩ else s

/-- Embeds `determineMatchType` from `album-matcher.ts`. -/
def determineMatchType (score artistScore : ℚ) : MatchType :=
  if 95 / 100 ≤ score then .exact'
  else if 75 / 100 ≤ score then .fuzzy
  else if 9 / 10 ≤ artistScore then .artist_only
  else .no_match

/-- The loop of `matchAlbumToCollection`, starting from
`bestMatch = null, bestScore = 0, bestArtistScore = 0`. -/
def bestStateOf (album : SpotifyAlbum) (collection : List DiscogsRelease) : BestState :=
  collection.foldl
    (matchStep (normalizeArtist album.artist) (normalizeAlbum album.name))
    ⟨none, 0, 0⟩

/-- Embeds `matchAlbumToCollection` from `album-matcher.ts`; on "no_match" the
returned `discogsRelease` is forced to `none`. -/
def matchAlbumToCollection (album : SpotifyAlbum) (collection : List DiscogsRelease) :
    MatchResult :=
  let s := bestStateOf album collection
  let matchType := determineMatchType s.bestScore s.bestArtistScore
  if matchType = .no_match then
    { spotifyAlbum := album, discogsRelease := none, matchScore := s.bestScore,
      matchType := .no_match }
  else
    { spotifyAlbum := album, discogsRelease := s.bestMatch, matchScore := s.bestScore,
      matchType := matchType }

/-- Embeds `matchAlbumsToCollection` from `album-matcher.ts`. -/
def matchAlbumsToCollection (albums : List SpotifyAlbum) (collection : List DiscogsRelease) :
    List MatchResult :=
  albums.map (fun album => matchAlbumToCollection album collection)

/-- A track record as consumed by `extractUniqueAlbums` and the analysis
handler: only the `artist` and `album` fields are read. -/
structure Track where
  artist : String
  album : String
deriving DecidableEq, Repr

/-- The dedup key `normalizeArtist(artist) + "|" + normalizeAlbum(album)` used
by `extractUniqueAlbums` and throughout the analysis handler. -/
def trackKey (artist album : String) : String :=
  normalizeArtist artist ++ "|" ++ normalizeAlbum album

/-- Worker for `extractUniqueAlbums`; the JavaScript `Set` of seen keys is
modelled by a list queried through membership. -/
def extractUniqueAlbumsAux : List Track → List String → List SpotifyAlbum
  | [], _ => []
  | t :: ts, seen =>
    let key := trackKey t.artist t.album
    if key ∈ seen then extractUniqueAlbumsAux ts seen
    else { name := t.album, artist := t.artist } :: extractUniqueAlbumsAux ts (key :: seen)

/-- Embeds `extractUniqueAlbums` from `album-matcher.ts`. -/
def extractUniqueAlbums (tracks : List Track) : List SpotifyAlbum :=
  extractUniqueAlbumsAux tracks []

/-- Embeds `isOwned` from `album-matcher.ts`. -/
def isOwned (result : MatchResult) : Bool :=
  result.matchType = MatchType.exact' || result.matchType = MatchType.fuzzy

/-- Model of `Map.get(k) ?? 0` over an association list. -/
def mapGetD (m : List (String × Nat)) (k : String) : Nat :=
  (((m.find? (fun p => p.1 = k)).map Prod.snd).getD 0)

/-- Model of `Map.set(k, v)`: the freshest binding wins. -/
def mapSet (m : List (String × Nat)) (k : String) (v : Nat) : List (String × Nat) :=
  (k, v) :: m.filter (fun p => !(p.1 = k))

/-- Model of `Math.round`: round half away from negative infinity, as
JavaScript does. -/
def jsRound (q : ℚ) : ℤ := ⌊q + 1 / 2⌋

/-- The play-count map built from `recentTracks` by the analysis handler. -/
def playCountMap (recentTracks : List Track) : List (String × Nat) :=
  recentTracks.foldl
    (fun m t =>
      let k := trackKey t.artist t.album
      mapSet m k (mapGetD m k + 1))
    []

/-- The set of dedup keys of the top tracks, built by the analysis handler. -/
def topTrackAlbums (topTracks : List Track) : List String :=
  topTracks.foldl (fun s t => trackKey t.artist t.album :: s) []

/-- The summary and Venn fields produced by the collection-analysis handler. -/
structure AnalysisSummary where
  ownedAndListened : Nat
  ownedNotListened : Nat
  listenedNotOwned : Nat
  alignmentScore : ℤ
  onlyOwned : ℤ
  onlyListened : ℤ
  both : Nat
  overlapPercentage : ℤ
deriving DecidableEq, Repr

/-- Embeds the pure aggregation section of `collectionAnalysisTool.handler`
(`collection-analysis.ts`) that produces the `summary` and `vennData` fields:
the per-release owned-and-listened classification, the listened-but-not-owned
count over the deduplicated listened albums, the alignment score, and the Venn
counts.  (The `topArtists` input only feeds the genre breakdown, which is not
among the fields modelled here, so it is not a parameter.) -/
def analyzeCollection (collection : List DiscogsRelease)
    (topTracks recentTracks : List Track) : AnalysisSummary :=
  let pcm := playCountMap recentTracks
  let tta := topTrackAlbums topTracks
  let counts := collection.foldl
    (fun (c : Nat × Nat) release =>
      let key := trackKey release.artist release.album
      let playCount := mapGetD pcm key
      let isInTop := key ∈ tta
      if 0 < playCount || isInTop then (c.1 + 1, c.2) else (c.1, c.2 + 1))
    (0, 0)
  let ownedAndListened := counts.1
  let ownedNotListened := counts.2
  let listenedAlbums := extractUniqueAlbums (topTracks ++ recentTracks)
  let matchResults := matchAlbumsToCollection listenedAlbums collection
  let listenedNotOwned := (matchResults.filter (fun r => !(isOwned r))).length
  let totalAnalyzed := ownedAndListened + ownedNotListened + listenedNotOwned
  let alignmentScore : ℤ :=
    if 0 < totalAnalyzed then jsRound ((ownedAndListened / totalAnalyzed : ℚ) * 100) else 0
  let overlapCount := (matchResults.filter (fun r => isOwned r)).length
  let onlyOwned : ℤ := (collection.length : ℤ) - overlapCount
  let onlyListened : ℤ := (listenedAlbums.length : ℤ) - overlapCount
  let both := overlapCount
  let totalUnique : ℤ := onlyOwned + onlyListened + both
  let overlapPercentage : ℤ :=
    if 0 < totalUnique then jsRound ((both / totalUnique : ℚ) * 100) else 0
  { ownedAndListened := ownedAndListened
    ownedNotListened := ownedNotListened
    listenedNotOwned := listenedNotOwned
    alignmentScore := alignmentScore
    onlyOwned := onlyOwned
    onlyListened := onlyListened
    both := both
    overlapPercentage := overlapPercentage }

/-- Numeric value of an ASCII digit. -/
def digitVal (c : Char) : Nat := c.toNat - 48

/-- Model of the date parsing done by `new Date(string)` restricted to
ISO-shaped `YYYY-MM-DD…` prefixes (the shape of the Discogs `date_added`
timestamps, read as UTC); returns `(fullYear, month)` with a 1-based month.
Any string not of this shape yields an invalid date, modelled as `none` — in
JavaScript `new Date` never throws, it produces an `Invalid Date` whose
`getFullYear`/`getMonth` are `NaN`. -/
def parseIsoDate (s : String) : Option (Nat × Nat) :=
  match s.data with
  | y1 :: y2 :: y3 :: y4 :: '-' :: m1 :: m2 :: '-' :: d1 :: d2 :: _ =>
    if y1.isDigit && y2.isDigit && y3.isDigit && y4.isDigit &&
        m1.isDigit && m2.isDigit && d1.isDigit && d2.isDigit then
      let m := 10 * digitVal m1 + digitVal m2
      let d := 10 * digitVal d1 + digitVal d2
      if 1 ≤ m && m ≤ 12 && 1 ≤ d && d ≤ 31 then
        some (1000 * digitVal y1 + 100 * digitVal y2 + 10 * digitVal y3 + digitVal y4, m)
      else none
    else none
  | _ => none

/-- Zero padding of `String(month).padStart(2, "0")`. -/
def padMonth (m : Nat) : String := if m < 10 then "0" ++ toString m else toString m

/-- The month key `${date.getFullYear()}-${String(date.getMonth() + 1).padStart(2, "0")}`
built by the timeline loop of the analysis handler.  For an unparseable
`dateAdded`, `getFullYear()` and `getMonth()` are `NaN`, and JavaScript string
interpolation of `NaN` (after `padStart`, which leaves `"NaN"` unchanged)
yields the literal key `"NaN-NaN"`. -/
def jsMonthKey (s : String) : String :=
  match parseIsoDate s with
  | some (y, m) => toString y ++ "-" ++ padMonth m
  | none => "NaN-NaN"

/-- The `timelineByMonth` record of the analysis handler: releases with a
non-null `dateAdded` are counted under their month key. -/
def timelineByMonth (collection : List DiscogsRelease) : List (String × Nat) :=
  collection.foldl
    (fun m r =>
      match r.dateAdded with
      | some s =>
        let k := jsMonthKey s
        mapSet m k (mapGetD m k + 1)
      | none => m)
    []

/-- Lexicographic comparison of character lists by code point, the default
`Array.prototype.sort()` string order (UTF-16 code units coincide with code
points on the basic multilingual plane). -/
def charListLe : List Char → List Char → Bool
  | [], _ => true
  | _ :: _, [] => false
  | a :: arest, b :: brest => if a = b then charListLe arest brest else decide (a < b)

/-- Insert into a sorted list of strings. -/
def insertSorted (x : String) : List String → List String
  | [] => [x]
  | y :: ys => if charListLe x.data y.data then x :: y :: ys else y :: insertSorted x ys

/-- Model of `Object.keys(…).sort()` (insertion sort; the keys are distinct,
so stability is irrelevant). -/
def sortStrings (l : List String) : List String := l.foldr insertSorted []

/-- One point of the `collectionTimeline` array of the analysis handler. -/
structure TimelinePoint where
  month : String
  addedCount : Nat
  cumulativeTotal : Nat
deriving DecidableEq, Repr

/-- Embeds the `collectionTimeline` construction of the analysis handler
(insights mode): group releases by month key, sort the keys, and emit points
with a running cumulative total. -/
def collectionTimeline (collection : List DiscogsRelease) : List TimelinePoint :=
  let tbm := timelineByMonth collection
  let sortedMonths := sortStrings (tbm.map Prod.fst)
  (sortedMonths.foldl
    (fun (acc : List TimelinePoint × Nat) month =>
      let cumulative := acc.2 + mapGetD tbm month
      (acc.1 ++ [{ month := month, addedCount := mapGetD tbm month,
                   cumulativeTotal := cumulative }], cumulative))
    ([], 0)).1

/-- Reference recurrence for the classic unit-cost Levenshtein edit distance:
`levCell a b i j` is the distance between the first `i` characters of `b` and
the first `j` characters of `a`, i.e. the cell `matrix[i][j]` of the dynamic
programming matrix built by `levenshteinDistance`. -/
def levCell (a b : List Char) : Nat → Nat → Nat
  | 0, j => j
  | i + 1, 0 => i + 1
  | i + 1, j + 1 =>
    if b.getD i ' ' = a.getD j ' ' then levCell a b i j
    else
      min (levCell a b i j + 1)
        (min (levCell a b (i + 1) j + 1) (levCell a b i (j + 1) + 1))
termination_by i j => (i, j)

/-- The suffix of row `i` of the Levenshtein matrix from column `j` on,
expressed through the reference recurrence; used to relate the row-by-row
construction of `levenshteinDistance` to `levCell`. -/
def rowFrom (a b : List Char) (i j : Nat) : List Nat :=
  (List.range' j (a.length + 1 - j)).map (levCell a b i)

/-- Do two tracks normalize to the same (artist, album) pair? -/
def samePair (t u : Track) : Prop :=
  normalizeArtist t.artist = normalizeArtist u.artist ∧
    normalizeAlbum t.album = normalizeAlbum u.album

instance (t u : Track) : Decidable (samePair t u) := by
  unfold samePair; infer_instance

/-- Specification-side deduplication, stated the way the specification words
it: keep the first track of every distinct normalized (artist, album) pair, in
first-seen order, projecting the first occurrence's original display strings;
every later track with the same normalized pair is dropped. -/
def dedupByNormalizedPair : List Track → List SpotifyAlbum
  | [] => []
  | t :: ts =>
    { name := t.album, artist := t.artist } ::
      dedupByNormalizedPair (ts.filter (fun u => !(decide (samePair t u))))
termination_by l => l.length
decreasing_by
  simp only [List.length_cons]
  exact Nat.lt_succ_of_le (List.length_filter_le _ _)

/-- A character that can occur in the output of the normalizers: a word
character or a single blank, in either case fixed by `toLower`. -/
def goodChar (c : Char) : Prop :=
  (isWordChar c = true ∨ c = ' ') ∧ c.toLower = c

/-- No two adjacent whitespace characters. -/
def NoAdjacentBlanks (l : List Char) : Prop :=
  l.Chain' (fun c1 c2 => ¬(isSpaceChar c1 = true ∧ isSpaceChar c2 = true))

/-- The first character, if any, is not whitespace. -/
def headNotBlank : List Char → Prop
  | [] => True
  | c :: _ => isSpaceChar c = false

/-- The last character, if any, is not whitespace. -/
def lastNotBlank (l : List Char) : Prop := headNotBlank l.reverse

/-- Shape of every normalizer output: word characters and single interior
blanks, trimmed, all fixed by `toLower`. -/
def canonicalChars (l : List Char) : Prop :=
  (∀ c ∈ l, goodChar c) ∧ NoAdjacentBlanks l ∧ headNotBlank l ∧ lastNotBlank l

/-- Concrete release (artist "q", album "cd") used at concrete inputs. -/
def relQCd : DiscogsRelease :=
  { releaseId := "1", artist := "q", artists := ["q"], album := "cd", year := none,
    dateAdded := none, thumb := none, genres := [], styles := [], formats := [] }

/-- Concrete candidate (artist "q", album "ab") used at concrete inputs. -/
def candQAb : SpotifyAlbum := { name := "ab", artist := "q" }

/-- Concrete release (artist "a", album "b"). -/
def relAb : DiscogsRelease :=
  { releaseId := "2", artist := "a", artists := ["a"], album := "b", year := none,
    dateAdded := none, thumb := none, genres := [], styles := [], formats := [] }

/-- Concrete candidate (artist "a", album "b") matching `relAb` exactly. -/
def candAb : SpotifyAlbum := { name := "b", artist := "a" }

/-- Four-release collection for the alignment-score scenario. -/
def c9Collection : List DiscogsRelease :=
  [{ releaseId := "r1", artist := "a", artists := ["a"], album := "b", year := none,
     dateAdded := none, thumb := none, genres := [], styles := [], formats := [] },
   { releaseId := "r2", artist := "c", artists := ["c"], album := "d", year := none,
     dateAdded := none, thumb := none, genres := [], styles := [], formats := [] },
   { releaseId := "r3", artist := "e", artists := ["e"], album := "f", year := none,
     dateAdded := none, thumb := none, genres := [], styles := [], formats := [] },
   { releaseId := "r4", artist := "g", artists := ["g"], album := "h", year := none,
     dateAdded := none, thumb := none, genres := [], styles := [], formats := [] }]

/-- Recently played tracks for the alignment-score scenario: three match the
first three releases exactly, the fourth matches nothing. -/
def c9Recent : List Track :=
  [{ artist := "a", album := "b" }, { artist := "c", album := "d" },
   { artist := "e", album := "f" }, { artist := "i", album := "k" }]

/-- One-release collection for the Venn scenario. -/
def c10Collection : List DiscogsRelease :=
  [{ releaseId := "v1", artist := "aa", artists := ["aa"], album := "bbbb", year := none,
     dateAdded := none, thumb := none, genres := [], styles := [], formats := [] }]

/-- Two listened tracks that both match the single release of
`c10Collection` (one exactly, one fuzzily). -/
def c10Recent : List Track :=
  [{ artist := "aa", album := "bbbb" }, { artist := "aa", album := "bbbc" }]

/-- A release whose `dateAdded` does not parse to a date. -/
def relBadDate : DiscogsRelease :=
  { releaseId := "d1", artist := "a", artists := ["a"], album := "b", year := none,
    dateAdded := some "not-a-date", thumb := none, genres := [], styles := [],
    formats := [] }

example : levenshteinDistance "kitten" "sitting" = 3 := by decide
example : normalizeArtist "The Beatles" = "beatles" := by decide
example : normalizeAlbum "OK Computer (Remastered 2009)" = "ok computer" := by decide
example : normalizeAlbum "Revolver - 2011 Remastered" = "revolver" := by decide

/-! ### Character-level facts -/

theorem char_ofNat_toNat_add32 (c : Char) (h : c.toNat ≥ 65 ∧ c.toNat ≤ 90) :
    (Char.ofNat (c.toNat + 32)).toNat = c.toNat + 32 := by
  have hv : (c.toNat + 32).isValidChar := Or.inl (by omega)
  simp only [Char.ofNat, Char.ofNatAux, dif_pos hv]
  simp [Char.toNat, UInt32.toNat]

theorem toLower_toLower (c : Char) : c.toLower.toLower = c.toLower := by
  unfold Char.toLower
  by_cases h : c.toNat ≥ 65 ∧ c.toNat ≤ 90
  · simp only [h, and_self, if_pos, char_ofNat_toNat_add32 c h]
    rw [if_neg (by omega)]
  · simp [h]

theorem isWordChar_false_of_space {c : Char} (h : isSpaceChar c = true) :
    isWordChar c = false := by
  simp only [isSpaceChar, Bool.or_eq_true, decide_eq_true_eq] at h
  rcases h with ((((h | h) | h) | h) | h) | h <;> subst h <;> decide

theorem space_eq_blank {c : Char} (hg : goodChar c) (h : isSpaceChar c = true) : c = ' ' := by
  rcases hg.1 with hw | hb
  · rw [isWordChar_false_of_space h] at hw; cases hw
  · exact hb

/-! ### The Levenshtein matrix computes the textbook recurrence -/

theorem levCell_zero_right (a b : List Char) (i : Nat) : levCell a b i 0 = i := by
  cases i <;> simp [levCell]

theorem levCell_comm (a b : List Char) (i j : Nat) : levCell a b i j = levCell b a j i := by
  induction i, j using levCell.induct a b with
  | case1 j => simp [levCell, levCell_zero_right]
  | case2 i => simp [levCell, levCell_zero_right]
  | case3 i j h ih =>
    have h' : a.getD j ' ' = b.getD i ' ' := h.symm
    simp only [levCell, if_pos h, if_pos h', ih]
  | case4 i j h ih1 ih2 ih3 =>
    have h' : ¬(a.getD j ' ' = b.getD i ' ') := fun hh => h hh.symm
    simp only [levCell, if_neg h, if_neg h', ih1, ih2, ih3]
    omega

theorem levCell_le_max (a b : List Char) (i j : Nat) : levCell a b i j ≤ max i j := by
  induction i, j using levCell.induct a b with
  | case1 j => simp [levCell]
  | case2 i => simp [levCell]
  | case3 i j h ih =>
    simp only [levCell, if_pos h]
    omega
  | case4 i j h ih1 ih2 ih3 =>
    simp only [levCell, if_neg h]
    omega

theorem rowFrom_cons (a b : List Char) (i j : Nat) (hj : j ≤ a.length) :
    rowFrom a b i j = levCell a b i j :: rowFrom a b i (j + 1) := by
  unfold rowFrom
  have h1 : a.length + 1 - j = (a.length - j) + 1 := by omega
  have h2 : a.length + 1 - (j + 1) = a.length - j := by omega
  rw [h1, h2, List.range'_succ, List.map_cons]

theorem rowFrom_nil (a b : List Char) (i j : Nat) (hj : a.length < j) :
    rowFrom a b i j = [] := by
  unfold rowFrom
  have h1 : a.length + 1 - j = 0 := by omega
  rw [h1]
  rfl

theorem levRowAux_spec (a b : List Char) (i : Nat) :
    ∀ k j, j + k = a.length →
      levRowAux (b.getD i ' ') (a.drop j) (rowFrom a b i (j + 1)) (levCell a b i j)
        (levCell a b (i + 1) j) = rowFrom a b (i + 1) (j + 1) := by
  intro k
  induction k with
  | zero =>
    intro j hj
    have hd : a.drop j = [] := by
      apply List.drop_eq_nil_of_le; omega
    rw [hd, rowFrom_nil a b i (j + 1) (by omega), rowFrom_nil a b (i + 1) (j + 1) (by omega)]
    rfl
  | succ k ih =>
    intro j hj
    have hjl : j < a.length := by omega
    have hd : a.drop j = a.getD j ' ' :: a.drop (j + 1) := by
      rw [List.drop_eq_getElem_cons hjl]
      congr 1
      rw [List.getD_eq_getElem?_getD, List.getElem?_eq_getElem hjl]
      rfl
    rw [hd, rowFrom_cons a b i (j + 1) (by omega), levRowAux]
    have hcell : (if b.getD i ' ' = a.getD j ' ' then levCell a b i j
        else min (levCell a b i j + 1)
          (min (levCell a b (i + 1) j + 1) (levCell a b i (j + 1) + 1)))
        = levCell a b (i + 1) (j + 1) := by
      rw [levCell]
    rw [hcell, ih (j + 1) (by omega), rowFrom_cons a b (i + 1) (j + 1) (by omega)]

theorem levFullRow_spec (a b : List Char) (i : Nat) :
    levFullRow (b.getD i ' ') a (rowFrom a b i 0) (i + 1) = rowFrom a b (i + 1) 0 := by
  rw [rowFrom_cons a b i 0 (by omega), levFullRow, levCell_zero_right]
  have h0 : rowFrom a b i (0 + 1) = rowFrom a b i 1 := rfl
  have := levRowAux_spec a b i a.length 0 (by omega)
  rw [List.drop_zero, levCell_zero_right, levCell_zero_right] at this
  rw [h0, this, rowFrom_cons a b (i + 1) 0 (by omega), levCell_zero_right]

theorem lev_fold_spec (a b : List Char) :
    ∀ (rest : List Char) (i : Nat), b.drop i = rest →
      rest.foldl (fun st bc => (levFullRow bc a st.1 (st.2 + 1), st.2 + 1)) (rowFrom a b i 0, i)
        = (rowFrom a b (i + rest.length) 0, i + rest.length) := by
  intro rest
  induction rest with
  | nil => intro i _; simp
  | cons c cs ih =>
    intro i hdrop
    have hi : i < b.length := by
      by_contra hge
      rw [List.drop_eq_nil_of_le (by omega)] at hdrop
      cases hdrop
    have h2 := (List.drop_eq_getElem_cons hi).symm.trans hdrop
    injection h2 with h2a h2b
    have hc : b.getD i ' ' = c := by
      rw [List.getD_eq_getElem?_getD, List.getElem?_eq_getElem hi]
      simpa using h2a
    rw [List.foldl_cons]
    have hstep : levFullRow c a (rowFrom a b i 0) (i + 1) = rowFrom a b (i + 1) 0 := by
      rw [← hc]; exact levFullRow_spec a b i
    rw [hstep, ih (i + 1) h2b]
    simp only [List.length_cons]
    rw [show i + 1 + cs.length = i + (cs.length + 1) from by omega]

theorem range_eq_rowFrom_zero (a b : List Char) :
    List.range (a.length + 1) = rowFrom a b 0 0 := by
  unfold rowFrom
  rw [Nat.sub_zero, List.range_eq_range']
  have : ∀ j ∈ List.range' 0 (a.length + 1), j = levCell a b 0 j := by
    intro j _; simp [levCell]
  calc List.range' 0 (a.length + 1)
      = (List.range' 0 (a.length + 1)).map id := by rw [List.map_id]
    _ = (List.range' 0 (a.length + 1)).map (levCell a b 0) := by
        apply List.map_congr_left
        intro j hj
        simpa using this j hj

theorem levenshteinDistance_eq_levCell (a b : String) :
    levenshteinDistance a b = levCell a.data b.data b.data.length a.data.length := by
  unfold levenshteinDistance
  rw [range_eq_rowFrom_zero a.data b.data]
  have hfold := lev_fold_spec a.data b.data b.data 0 (by simp)
  simp only [Nat.zero_add] at hfold
  rw [hfold]
  unfold rowFrom
  rw [Nat.sub_zero]
  rw [List.getD_eq_getElem?_getD]
  rw [List.getElem?_eq_getElem (by simp [List.length_range'])]
  rw [List.getElem_map, List.getElem_range']
  simp

theorem levenshteinDistance_comm (a b : String) :
    levenshteinDistance a b = levenshteinDistance b a := by
  rw [levenshteinDistance_eq_levCell, levenshteinDistance_eq_levCell, levCell_comm]

theorem levenshteinDistance_le_max (a b : String) :
    levenshteinDistance a b ≤ max a.length b.length := by
  rw [levenshteinDistance_eq_levCell]
  have := levCell_le_max a.data b.data b.data.length a.data.length
  calc levCell a.data b.data b.data.length a.data.length
      ≤ max b.data.length a.data.length := this
    _ = max a.length b.length := by
        show max b.data.length a.data.length = max a.data.length b.data.length
        exact Nat.max_comm _ _

theorem stringSimilarity_self (a : String) : stringSimilarity a a = 1 := by
  simp [stringSimilarity]

theorem stringSimilarity_of_empty (a b : String) (hab : a ≠ b)
    (h : a.length = 0 ∨ b.length = 0) : stringSimilarity a b = 0 := by
  unfold stringSimilarity
  rw [if_neg hab, if_pos]
  rcases h with h | h <;> simp [h]

theorem stringSimilarity_of_ne (a b : String) (hab : a ≠ b)
    (ha : a.length ≠ 0) (hb : b.length ≠ 0) :
    stringSimilarity a b =
      1 - (levenshteinDistance a b : ℚ) / (max a.length b.length : ℚ) := by
  unfold stringSimilarity
  rw [if_neg hab, if_neg]
  simp [ha, hb]

theorem stringSimilarity_mem_unit (a b : String) :
    0 ≤ stringSimilarity a b ∧ stringSimilarity a b ≤ 1 := by
  by_cases hab : a = b
  · subst hab; rw [stringSimilarity_self]; norm_num
  · by_cases hz : a.length = 0 ∨ b.length = 0
    · rw [stringSimilarity_of_empty a b hab hz]; norm_num
    · push_neg at hz
      rw [stringSimilarity_of_ne a b hab hz.1 hz.2]
      have hm1 : (1 : ℚ) ≤ (max a.length b.length : ℚ) := by
        have : 1 ≤ max a.length b.length := by
          have := Nat.le_max_left a.length b.length
          omega
        exact_mod_cast this
      have hd0 : (0 : ℚ) ≤ (levenshteinDistance a b : ℚ) := by positivity
      have hdm : (levenshteinDistance a b : ℚ) ≤ (max a.length b.length : ℚ) := by
        exact_mod_cast levenshteinDistance_le_max a b
      constructor
      · have : (levenshteinDistance a b : ℚ) / (max a.length b.length : ℚ) ≤ 1 :=
          (div_le_one (by linarith)).mpr hdm
        linarith
      · have : 0 ≤ (levenshteinDistance a b : ℚ) / (max a.length b.length : ℚ) :=
          div_nonneg hd0 (by linarith)
        linarith

theorem stringSimilarity_comm (a b : String) :
    stringSimilarity a b = stringSimilarity b a := by
  by_cases hab : a = b
  · rw [hab]
  · have hba : b ≠ a := Ne.symm hab
    by_cases hz : a.length = 0 ∨ b.length = 0
    · rw [stringSimilarity_of_empty a b hab hz,
        stringSimilarity_of_empty b a hba (Or.comm.mp hz)]
    · push_neg at hz
      rw [stringSimilarity_of_ne a b hab hz.1 hz.2,
        stringSimilarity_of_ne b a hba hz.2 hz.1,
        levenshteinDistance_comm a b]
      have : max (a.length : ℚ) (b.length : ℚ) = max (b.length : ℚ) (a.length : ℚ) :=
        max_comm _ _
      rw [this]

/-- C6: `stringSimilarity` satisfies its contract: the dynamic-programming
matrix agrees with the textbook unit-cost insert/delete/substitute recurrence
`levCell`; equal strings score 1; an empty side (for unequal strings) scores 0;
otherwise the score is `1 - distance / max(length)`; the score is always in
`[0, 1]`; and the function is symmetric. -/
theorem c6_stringSimilarity_contract :
    (∀ a b : String,
      levenshteinDistance a b = levCell a.data b.data b.data.length a.data.length) ∧
    (∀ a : String, stringSimilarity a a = 1) ∧
    (∀ a b : String, a ≠ b → a.length = 0 ∨ b.length = 0 → stringSimilarity a b = 0) ∧
    (∀ a b : String, a ≠ b → a.length ≠ 0 → b.length ≠ 0 →
      stringSimilarity a b =
        1 - (levenshteinDistance a b : ℚ) / (max a.length b.length : ℚ)) ∧
    (∀ a b : String, 0 ≤ stringSimilarity a b ∧ stringSimilarity a b ≤ 1) ∧
    (∀ a b : String, stringSimilarity a b = stringSimilarity b a) :=
  ⟨levenshteinDistance_eq_levCell, stringSimilarity_self, stringSimilarity_of_empty,
    stringSimilarity_of_ne, stringSimilarity_mem_unit, stringSimilarity_comm⟩

/-- Witness for C6: the hypothesis-bearing clauses instantiated at concrete
strings. -/
theorem c6_stringSimilarity_contract_witness :
    (("ab" : String) ≠ "" ∧ stringSimilarity "ab" "" = 0) ∧
    (("ab" : String) ≠ "ba" ∧ ("ab" : String).length ≠ 0 ∧ ("ba" : String).length ≠ 0 ∧
      stringSimilarity "ab" "ba" =
        1 - (levenshteinDistance "ab" "ba" : ℚ) /
          (max ("ab" : String).length ("ba" : String).length : ℚ)) :=
  ⟨⟨by decide, c6_stringSimilarity_contract.2.2.1 "ab" "" (by decide) (Or.inr rfl)⟩,
    ⟨by decide, by decide, by decide,
      c6_stringSimilarity_contract.2.2.2.1 "ab" "ba" (by decide) (by decide) (by decide)⟩⟩

/-! ### Characterizing the best-match loop -/

theorem foldl_matchStep_char (na nb : String) :
    ∀ (l : List DiscogsRelease) (s0 : BestState),
      (l.foldl (matchStep na nb) s0 = s0 ∧
        ∀ i : Fin l.length, (releaseScores na nb (l.get i)).2 ≤ s0.bestScore) ∨
      (∃ i : Fin l.length,
        (l.foldl (matchStep na nb) s0).bestMatch = some (l.get i) ∧
        (l.foldl (matchStep na nb) s0).bestScore = (releaseScores na nb (l.get i)).2 ∧
        (l.foldl (matchStep na nb) s0).bestArtistScore = (releaseScores na nb (l.get i)).1 ∧
        s0.bestScore < (releaseScores na nb (l.get i)).2 ∧
        (∀ j : Fin l.length,
          (releaseScores na nb (l.get j)).2 ≤ (releaseScores na nb (l.get i)).2) ∧
        (∀ j : Fin l.length, (j : Nat) < (i : Nat) →
          (releaseScores na nb (l.get j)).2 < (releaseScores na nb (l.get i)).2)) := by
  intro l
  induction l with
  | nil =>
    intro s0
    left
    refine ⟨rfl, fun i => i.elim0⟩
  | cons r t ih =>
    intro s0
    rw [List.foldl_cons]
    by_cases hlt : s0.bestScore < (releaseScores na nb r).2
    · have hstep : matchStep na nb s0 r =
          ⟨some r, (releaseScores na nb r).2, (releaseScores na nb r).1⟩ := by
        unfold matchStep
        rw [if_pos hlt]
      rw [hstep]
      rcases ih ⟨some r, (releaseScores na nb r).2, (releaseScores na nb r).1⟩ with
        ⟨heq, hbound⟩ | ⟨i, hm, hs, ha, hgt, hub, hfirst⟩
      · right
        refine ⟨⟨0, by simp⟩, ?_, ?_, ?_, ?_, ?_, ?_⟩
        · rw [heq]; rfl
        · rw [heq]; rfl
        · rw [heq]; rfl
        · simpa using hlt
        · intro j
          refine Fin.cases ?_ ?_ j
          · simp
          · intro jj
            have := hbound jj
            simpa using this
        · intro j hj
          simp at hj
      · right
        refine ⟨i.succ, ?_, ?_, ?_, ?_, ?_, ?_⟩
        · simpa using hm
        · simpa using hs
        · simpa using ha
        · have : (releaseScores na nb r).2 <
              (releaseScores na nb ((r :: t).get i.succ)).2 := by simpa using hgt
          calc s0.bestScore < (releaseScores na nb r).2 := hlt
            _ < _ := this
        · intro j
          refine Fin.cases ?_ ?_ j
          · have : (releaseScores na nb r).2 <
                (releaseScores na nb ((r :: t).get i.succ)).2 := by simpa using hgt
            simpa using le_of_lt this
          · intro jj
            have := hub jj
            simpa using this
        · intro j
          refine Fin.cases ?_ ?_ j
          · intro _
            simpa using hgt
          · intro jj hj
            have hj' : (jj : Nat) < (i : Nat) := by simpa using hj
            have := hfirst jj hj'
            simpa using this
    · have hstep : matchStep na nb s0 r = s0 := by
        unfold matchStep
        rw [if_neg hlt]
      rw [hstep]
      rcases ih s0 with ⟨heq, hbound⟩ | ⟨i, hm, hs, ha, hgt, hub, hfirst⟩
      · left
        refine ⟨heq, ?_⟩
        intro j
        refine Fin.cases ?_ ?_ j
        · simpa using le_of_not_lt hlt
        · intro jj
          have := hbound jj
          simpa using this
      · right
        refine ⟨i.succ, ?_, ?_, ?_, ?_, ?_, ?_⟩
        · simpa using hm
        · simpa using hs
        · simpa using ha
        · simpa using hgt
        · intro j
          refine Fin.cases ?_ ?_ j
          · have h1 : s0.bestScore < (releaseScores na nb ((r :: t).get i.succ)).2 := by
              simpa using hgt
            have h0 : (releaseScores na nb r).2 ≤ s0.bestScore := le_of_not_lt hlt
            simpa using le_of_lt (lt_of_le_of_lt h0 h1)
          · intro jj
            have := hub jj
            simpa using this
        · intro j
          refine Fin.cases ?_ ?_ j
          · intro _
            have h1 : s0.bestScore < (releaseScores na nb ((r :: t).get i.succ)).2 := by
              simpa using hgt
            have h0 : (releaseScores na nb r).2 ≤ s0.bestScore := le_of_not_lt hlt
            simpa using lt_of_le_of_lt h0 h1
          · intro jj hj
            have hj' : (jj : Nat) < (i : Nat) := by simpa using hj
            have := hfirst jj hj'
            simpa using this

theorem determineMatchType_eq_no_match_iff (s as : ℚ) :
    determineMatchType s as = .no_match ↔
      ¬(95 / 100 ≤ s) ∧ ¬(75 / 100 ≤ s) ∧ ¬(9 / 10 ≤ as) := by
  unfold determineMatchType
  split_ifs with h1 h2 h3 <;> simp_all

theorem bestStateOf_eq_foldl (album : SpotifyAlbum) (collection : List DiscogsRelease) :
    bestStateOf album collection =
      collection.foldl
        (matchStep (normalizeArtist album.artist) (normalizeAlbum album.name))
        ⟨none, 0, 0⟩ := rfl

theorem bestStateOf_none (album : SpotifyAlbum) (collection : List DiscogsRelease)
    (h : (bestStateOf album collection).bestMatch = none) :
    (bestStateOf album collection).bestScore = 0 ∧
      (bestStateOf album collection).bestArtistScore = 0 := by
  rcases foldl_matchStep_char (normalizeArtist album.artist) (normalizeAlbum album.name)
      collection ⟨none, 0, 0⟩ with ⟨heq, _⟩ | ⟨i, hm, _⟩
  · rw [bestStateOf_eq_foldl, heq]
    exact ⟨rfl, rfl⟩
  · rw [bestStateOf_eq_foldl] at h
    rw [hm] at h
    cases h

/-- C2: for every candidate and release list, the result of
`matchAlbumToCollection` has a non-null `discogsRelease` exactly when its
`matchType` is "exact", "fuzzy" or "artist_only"; equivalently,
`discogsRelease` is null exactly when the `matchType` is "no_match". -/
theorem c2_matched_release_iff_tier (album : SpotifyAlbum)
    (collection : List DiscogsRelease) :
    ((matchAlbumToCollection album collection).discogsRelease ≠ none ↔
      ((matchAlbumToCollection album collection).matchType = MatchType.exact' ∨
        (matchAlbumToCollection album collection).matchType = MatchType.fuzzy ∨
        (matchAlbumToCollection album collection).matchType = MatchType.artist_only)) ∧
    ((matchAlbumToCollection album collection).discogsRelease = none ↔
      (matchAlbumToCollection album collection).matchType = MatchType.no_match) := by
  unfold matchAlbumToCollection
  by_cases ht : determineMatchType (bestStateOf album collection).bestScore
      (bestStateOf album collection).bestArtistScore = MatchType.no_match
  · rw [if_pos ht]
    simp
  · rw [if_neg ht]
    have hsome : ∃ r, (bestStateOf album collection).bestMatch = some r := by
      cases hbm : (bestStateOf album collection).bestMatch with
      | none =>
        exfalso
        obtain ⟨h1, h2⟩ := bestStateOf_none album collection hbm
        rw [h1, h2] at ht
        apply ht
        rw [determineMatchType_eq_no_match_iff]
        norm_num
      | some r => exact ⟨r, rfl⟩
    obtain ⟨r, hr⟩ := hsome
    simp only [hr]
    constructor
    · simp only [ne_eq, reduceCtorEq, not_false_eq_true, true_iff]
      cases h : determineMatchType (bestStateOf album collection).bestScore
          (bestStateOf album collection).bestArtistScore with
      | exact' => exact Or.inl rfl
      | fuzzy => exact Or.inr (Or.inl rfl)
      | artist_only => exact Or.inr (Or.inr rfl)
      | no_match => exact absurd h ht
    · simp only [reduceCtorEq, false_iff]
      exact ht

theorem determineMatchType_def (s as : ℚ) :
    determineMatchType s as =
      (if 95 / 100 ≤ s then MatchType.exact'
       else if 75 / 100 ≤ s then MatchType.fuzzy
       else if 9 / 10 ≤ as then MatchType.artist_only
       else MatchType.no_match) := rfl

/-- C3: `matchAlbumToCollection` reports the winning combined score (an upper
bound of all per-release scores, attained unless zero) and classifies it with
its paired artist score by the exact threshold cascade `0.95 / 0.75 / 0.9`;
the empty release list yields "no_match" with score 0. -/
theorem c3_threshold_cascade (album : SpotifyAlbum) (collection : List DiscogsRelease) :
    ((matchAlbumToCollection album collection).matchScore
        = (bestStateOf album collection).bestScore ∧
      (matchAlbumToCollection album collection).matchType =
        (if 95 / 100 ≤ (bestStateOf album collection).bestScore then MatchType.exact'
         else if 75 / 100 ≤ (bestStateOf album collection).bestScore then MatchType.fuzzy
         else if 9 / 10 ≤ (bestStateOf album collection).bestArtistScore then
           MatchType.artist_only
         else MatchType.no_match)) ∧
    (∀ i : Fin collection.length,
      (releaseScores (normalizeArtist album.artist) (normalizeAlbum album.name)
          (collection.get i)).2 ≤ (bestStateOf album collection).bestScore) ∧
    ((bestStateOf album collection).bestScore = 0 ∨
      ∃ i : Fin collection.length,
        (bestStateOf album collection).bestScore =
          (releaseScores (normalizeArtist album.artist) (normalizeAlbum album.name)
            (collection.get i)).2) ∧
    matchAlbumToCollection album [] =
      { spotifyAlbum := album, discogsRelease := none, matchScore := 0,
        matchType := MatchType.no_match } := by
  refine ⟨⟨?_, ?_⟩, ?_, ?_, ?_⟩
  · unfold matchAlbumToCollection
    by_cases ht : determineMatchType (bestStateOf album collection).bestScore
        (bestStateOf album collection).bestArtistScore = MatchType.no_match
    · rw [if_pos ht]
    · rw [if_neg ht]
  · rw [← determineMatchType_def]
    unfold matchAlbumToCollection
    by_cases ht : determineMatchType (bestStateOf album collection).bestScore
        (bestStateOf album collection).bestArtistScore = MatchType.no_match
    · rw [if_pos ht]; exact ht.symm
    · rw [if_neg ht]
  · intro i
    rcases foldl_matchStep_char (normalizeArtist album.artist) (normalizeAlbum album.name)
        collection ⟨none, 0, 0⟩ with ⟨heq, hbound⟩ | ⟨k, _, hs, _, _, hub, _⟩
    · rw [bestStateOf_eq_foldl, heq]
      exact hbound i
    · rw [bestStateOf_eq_foldl, hs]
      exact hub i
  · rcases foldl_matchStep_char (normalizeArtist album.artist) (normalizeAlbum album.name)
        collection ⟨none, 0, 0⟩ with ⟨heq, _⟩ | ⟨k, _, hs, _, _, _, _⟩
    · left
      rw [bestStateOf_eq_foldl, heq]
    · right
      exact ⟨k, by rw [bestStateOf_eq_foldl, hs]⟩
  · have h0 : bestStateOf album ([] : List DiscogsRelease) = ⟨none, 0, 0⟩ := rfl
    unfold matchAlbumToCollection
    rw [h0]
    have hdm : determineMatchType (BestState.mk none 0 0).bestScore
        (BestState.mk none 0 0).bestArtistScore = MatchType.no_match := by
      rw [determineMatchType_eq_no_match_iff]
      norm_num
    rw [if_pos hdm]

/-- C7: whenever `matchAlbumToCollection` reports a matched release, that
release is the earliest one in iteration order attaining the maximum combined
score: all scores are bounded by its score, and every strictly earlier release
scores strictly less (a later release replaces the best only on a strict
improvement). -/
theorem c7_first_best_wins (album : SpotifyAlbum) (collection : List DiscogsRelease)
    (r : DiscogsRelease)
    (h : (matchAlbumToCollection album collection).discogsRelease = some r) :
    ∃ i : Fin collection.length, collection.get i = r ∧
      (∀ j : Fin collection.length,
        (releaseScores (normalizeArtist album.artist) (normalizeAlbum album.name)
            (collection.get j)).2 ≤
          (releaseScores (normalizeArtist album.artist) (normalizeAlbum album.name)
            (collection.get i)).2) ∧
      (∀ j : Fin collection.length, (j : Nat) < (i : Nat) →
        (releaseScores (normalizeArtist album.artist) (normalizeAlbum album.name)
            (collection.get j)).2 <
          (releaseScores (normalizeArtist album.artist) (normalizeAlbum album.name)
            (collection.get i)).2) := by
  unfold matchAlbumToCollection at h
  by_cases ht : determineMatchType (bestStateOf album collection).bestScore
      (bestStateOf album collection).bestArtistScore = MatchType.no_match
  · rw [if_pos ht] at h
    cases h
  · rw [if_neg ht] at h
    rcases foldl_matchStep_char (normalizeArtist album.artist) (normalizeAlbum album.name)
        collection ⟨none, 0, 0⟩ with ⟨heq, _⟩ | ⟨i, hm, hs, _, _, hub, hfirst⟩
    · exfalso
      have : (bestStateOf album collection).bestMatch = none := by
        rw [bestStateOf_eq_foldl, heq]
      rw [this] at h
      cases h
    · have hr : collection.get i = r := by
        have : (bestStateOf album collection).bestMatch = some (collection.get i) := by
          rw [bestStateOf_eq_foldl]; exact hm
        rw [this] at h
        exact Option.some.inj h
      refine ⟨i, hr, ?_, ?_⟩
      · intro j
        exact hub j
      · intro j hj
        exact hfirst j hj

/-- Witness for C7 at a concrete exact match. -/
theorem c7_first_best_wins_witness :
    (matchAlbumToCollection candAb [relAb]).discogsRelease = some relAb ∧
    ∃ i : Fin ([relAb] : List DiscogsRelease).length,
      ([relAb] : List DiscogsRelease).get i = relAb ∧
      (∀ j : Fin ([relAb] : List DiscogsRelease).length,
        (releaseScores (normalizeArtist candAb.artist) (normalizeAlbum candAb.name)
            (([relAb] : List DiscogsRelease).get j)).2 ≤
          (releaseScores (normalizeArtist candAb.artist) (normalizeAlbum candAb.name)
            (([relAb] : List DiscogsRelease).get i)).2) ∧
      (∀ j : Fin ([relAb] : List DiscogsRelease).length, (j : Nat) < (i : Nat) →
        (releaseScores (normalizeArtist candAb.artist) (normalizeAlbum candAb.name)
            (([relAb] : List DiscogsRelease).get j)).2 <
          (releaseScores (normalizeArtist candAb.artist) (normalizeAlbum candAb.name)
            (([relAb] : List DiscogsRelease).get i)).2) := by
  have h1 : normalizeArtist "a" = "a" := by decide
  have h2 : normalizeAlbum "b" = "b" := by decide
  have hEval : (matchAlbumToCollection candAb [relAb]).discogsRelease = some relAb := by
    norm_num [matchAlbumToCollection, bestStateOf, candAb, relAb, matchStep,
      releaseScores, h1, h2, stringSimilarity_self, determineMatchType]
    simp [relAb]
  exact ⟨hEval, c7_first_best_wins candAb [relAb] relAb hEval⟩

/-- C1 counterexample: at the concrete candidate (artist "q", album "ab")
against the one-release collection [(artist "q", album "cd")] the best release
has artistScore 1 and albumScore 0, so the combined score is 0.4 — yet the
result is classified "artist_only" (because the 0.9 threshold is compared
against the artist score, which is 1), not "no_match" as the claim states. -/
theorem c1_counterexample :
    stringSimilarity (normalizeArtist candQAb.artist) (normalizeArtist relQCd.artist) = 1 ∧
    stringSimilarity (normalizeAlbum candQAb.name) (normalizeAlbum relQCd.album) = 0 ∧
    (bestStateOf candQAb [relQCd]).bestScore = 2 / 5 ∧
    (bestStateOf candQAb [relQCd]).bestArtistScore = 1 ∧
    (matchAlbumToCollection candQAb [relQCd]).matchType = MatchType.artist_only ∧
    (matchAlbumToCollection candQAb [relQCd]).matchType ≠ MatchType.no_match := by
  have h1 : normalizeArtist "q" = "q" := by decide
  have h2 : normalizeAlbum "ab" = "ab" := by decide
  have h3 : normalizeAlbum "cd" = "cd" := by decide
  have hs2 : stringSimilarity "ab" "cd" = 0 := by
    have hd : levenshteinDistance "ab" "cd" = 2 := by decide
    have hne : ("ab" : String) ≠ "cd" := by decide
    have l1 : ("ab" : String).length = 2 := rfl
    have l2 : ("cd" : String).length = 2 := rfl
    simp [stringSimilarity, hne, hd, l1, l2]
  refine ⟨?_, ?_, ?_, ?_, ?_, ?_⟩ <;>
    norm_num [matchAlbumToCollection, bestStateOf, candQAb, relQCd, matchStep,
      releaseScores, h1, h2, h3, hs2, stringSimilarity_self, determineMatchType] <;>
    simp

/-- C1 (amended): whenever the loop of `matchAlbumToCollection` ends with
combined score 0.4 and artist score 1 (the state produced by a best release
with artistScore 1 and albumScore 0), the result is classified "artist_only" —
0.4 is indeed below the 0.95 and 0.75 thresholds, but the 0.9 threshold is
compared against the artist score, which is 1. -/
theorem c1_amended_artist_only (album : SpotifyAlbum) (collection : List DiscogsRelease)
    (hs : (bestStateOf album collection).bestScore = 2 / 5)
    (ha : (bestStateOf album collection).bestArtistScore = 1) :
    (matchAlbumToCollection album collection).matchType = MatchType.artist_only := by
  have hdm : determineMatchType (bestStateOf album collection).bestScore
      (bestStateOf album collection).bestArtistScore = MatchType.artist_only := by
    rw [hs, ha]
    norm_num [determineMatchType]
  simp only [matchAlbumToCollection]
  rw [hdm]
  simp

/-- Witness for the amended C1 at the concrete input of the counterexample. -/
theorem c1_amended_artist_only_witness :
    (bestStateOf candQAb [relQCd]).bestScore = 2 / 5 ∧
    (bestStateOf candQAb [relQCd]).bestArtistScore = 1 ∧
    (matchAlbumToCollection candQAb [relQCd]).matchType = MatchType.artist_only := by
  have h1 : normalizeArtist "q" = "q" := by decide
  have h2 : normalizeAlbum "ab" = "ab" := by decide
  have h3 : normalizeAlbum "cd" = "cd" := by decide
  have hs2 : stringSimilarity "ab" "cd" = 0 := by
    have hd : levenshteinDistance "ab" "cd" = 2 := by decide
    have hne : ("ab" : String) ≠ "cd" := by decide
    have l1 : ("ab" : String).length = 2 := rfl
    have l2 : ("cd" : String).length = 2 := rfl
    simp [stringSimilarity, hne, hd, l1, l2]
  have hs : (bestStateOf candQAb [relQCd]).bestScore = 2 / 5 := by
    norm_num [bestStateOf, candQAb, relQCd, matchStep, releaseScores, h1, h2, h3, hs2,
      stringSimilarity_self]
  have ha : (bestStateOf candQAb [relQCd]).bestArtistScore = 1 := by
    norm_num [bestStateOf, candQAb, relQCd, matchStep, releaseScores, h1, h2, h3, hs2,
      stringSimilarity_self]
  exact ⟨hs, ha, c1_amended_artist_only candQAb [relQCd] hs ha⟩

/-! ### Shape of the normalizer outputs -/

theorem mem_stripLeadingThe {c : Char} {l : List Char} (h : c ∈ stripLeadingThe l) :
    c ∈ l := by
  unfold stripLeadingThe at h
  split at h
  · next c' rest =>
    split at h
    · have hmem : c ∈ rest := List.Sublist.mem h (List.dropWhile_suffix isSpaceChar).sublist
      simp [hmem]
    · exact h
  · exact h


theorem mem_collapseWsAux {c : Char} :
    ∀ {l : List Char} {b : Bool}, c ∈ collapseWsAux l b →
      c = ' ' ∨ (c ∈ l ∧ isSpaceChar c = false) := by
  intro l
  induction l with
  | nil => intro b h; cases h
  | cons d rest ih =>
    intro b h
    unfold collapseWsAux at h
    by_cases hd : isSpaceChar d = true
    · rw [if_pos hd] at h
      cases b with
      | true =>
        rw [if_pos rfl] at h
        rcases ih h with h1 | ⟨h1, h2⟩
        · exact Or.inl h1
        · exact Or.inr ⟨List.mem_cons_of_mem d h1, h2⟩
      | false =>
        rw [if_neg (by simp)] at h
        rcases List.mem_cons.mp h with h | h
        · exact Or.inl h
        · rcases ih h with h1 | ⟨h1, h2⟩
          · exact Or.inl h1
          · exact Or.inr ⟨List.mem_cons_of_mem d h1, h2⟩
    · rw [if_neg hd] at h
      rcases List.mem_cons.mp h with h | h
      · subst h
        exact Or.inr ⟨List.mem_cons_self c rest, by simpa using hd⟩
      · rcases ih h with h1 | ⟨h1, h2⟩
        · exact Or.inl h1
        · exact Or.inr ⟨List.mem_cons_of_mem d h1, h2⟩

theorem mem_trimChars {c : Char} {l : List Char} (h : c ∈ trimChars l) : c ∈ l := by
  unfold trimChars at h
  rw [List.mem_reverse] at h
  have h1 : c ∈ (l.dropWhile isSpaceChar).reverse :=
    List.Sublist.mem h (List.dropWhile_suffix isSpaceChar).sublist
  rw [List.mem_reverse] at h1
  exact List.Sublist.mem h1 (List.dropWhile_suffix isSpaceChar).sublist

theorem parenMatchAtHead_suffix {l rem : List Char} (h : parenMatchAtHead l = some rem) :
    rem.Sublist l := by
  unfold parenMatchAtHead at h
  split at h
  · next rest heq =>
    split at h
    · next rest2 heq2 =>
      have h1 : rem = rest2.dropWhile isSpaceChar := by
        injection h with h'
        exact h'.symm
      have s1 : rest2.Sublist (')' :: rest2) := List.sublist_cons_self _ _
      have s2 : (')' :: rest2).Sublist rest := by
        rw [← heq2]
        exact (List.dropWhile_suffix _).sublist
      have s3 : rest.Sublist ('(' :: rest) := List.sublist_cons_self _ _
      have s4 : ('(' :: rest).Sublist l := by
        rw [← heq]
        exact (List.dropWhile_suffix _).sublist
      rw [h1]
      exact ((((List.dropWhile_suffix isSpaceChar).sublist.trans s1).trans s2).trans
        s3).trans s4
    · cases h
  · cases h

theorem mem_removeParensAux {c : Char} :
    ∀ (fuel : Nat) {l : List Char}, c ∈ removeParensAux fuel l → c ∈ l := by
  intro fuel
  induction fuel with
  | zero => intro l h; exact h
  | succ fuel ih =>
    intro l h
    unfold removeParensAux at h
    split at h
    · next rem heq =>
      exact (parenMatchAtHead_suffix heq).mem (ih h)
    · split at h
      · cases h
      · rcases List.mem_cons.mp h with h | h
        · simp [h]
        · exact List.mem_cons_of_mem _ (ih h)

theorem bracketMatchAtHead_suffix {l rem : List Char} (h : bracketMatchAtHead l = some rem) :
    rem.Sublist l := by
  unfold bracketMatchAtHead at h
  split at h
  · next rest heq =>
    split at h
    · next rest2 heq2 =>
      have h1 : rem = rest2.dropWhile isSpaceChar := by
        injection h with h'
        exact h'.symm
      have s1 : rest2.Sublist (']' :: rest2) := List.sublist_cons_self _ _
      have s2 : (']' :: rest2).Sublist rest := by
        rw [← heq2]
        exact (List.dropWhile_suffix _).sublist
      have s3 : rest.Sublist ('[' :: rest) := List.sublist_cons_self _ _
      have s4 : ('[' :: rest).Sublist l := by
        rw [← heq]
        exact (List.dropWhile_suffix _).sublist
      rw [h1]
      exact ((((List.dropWhile_suffix isSpaceChar).sublist.trans s1).trans s2).trans
        s3).trans s4
    · cases h
  · cases h

theorem mem_removeBracketsAux {c : Char} :
    ∀ (fuel : Nat) {l : List Char}, c ∈ removeBracketsAux fuel l → c ∈ l := by
  intro fuel
  induction fuel with
  | zero => intro l h; exact h
  | succ fuel ih =>
    intro l h
    unfold removeBracketsAux at h
    split at h
    · next rem heq =>
      exact (bracketMatchAtHead_suffix heq).mem (ih h)
    · split at h
      · cases h
      · rcases List.mem_cons.mp h with h | h
        · simp [h]
        · exact List.mem_cons_of_mem _ (ih h)

theorem mem_stripEditionYear {c : Char} :
    ∀ {l : List Char}, c ∈ stripEditionYear l → c ∈ l := by
  intro l
  induction l with
  | nil => intro h; cases h
  | cons d rest ih =>
    intro h
    unfold stripEditionYear at h
    split at h
    · cases h
    · rcases List.mem_cons.mp h with h | h
      · simp [h]
      · exact List.mem_cons_of_mem d (ih h)

theorem mem_stripEdition {c : Char} :
    ∀ {l : List Char}, c ∈ stripEdition l → c ∈ l := by
  intro l
  induction l with
  | nil => intro h; cases h
  | cons d rest ih =>
    intro h
    unfold stripEdition at h
    split at h
    · cases h
    · rcases List.mem_cons.mp h with h | h
      · simp [h]
      · exact List.mem_cons_of_mem d (ih h)

theorem goodChar_of_normalizeArtist (s : String) :
    ∀ c ∈ (normalizeArtist s).data, goodChar c := by
  intro c hc
  unfold normalizeArtist at hc
  have hc1 := mem_trimChars hc
  rcases mem_collapseWsAux hc1 with hb | ⟨hc2, hns⟩
  · exact ⟨Or.inr hb, by rw [hb]; decide⟩
  · unfold removeNonWordSpace at hc2
    have hc3 := List.mem_of_mem_filter hc2
    have hword : (isWordChar c || isSpaceChar c) = true := by
      simpa using List.of_mem_filter hc2
    have hc4 := mem_stripLeadingThe hc3
    unfold lowerChars at hc4
    rcases List.mem_map.mp hc4 with ⟨d, _, hd⟩
    have hfix : c.toLower = c := by rw [← hd]; exact toLower_toLower d
    rcases Bool.or_eq_true _ _ |>.mp hword with hw | hsp
    · exact ⟨Or.inl hw, hfix⟩
    · rw [hns] at hsp; cases hsp

theorem goodChar_of_normalizeAlbum (t : String) :
    ∀ c ∈ (normalizeAlbum t).data, goodChar c := by
  intro c hc
  unfold normalizeAlbum at hc
  have hc1 := mem_trimChars hc
  rcases mem_collapseWsAux hc1 with hb | ⟨hc2, hns⟩
  · exact ⟨Or.inr hb, by rw [hb]; decide⟩
  · unfold removeNonWordSpace at hc2
    have hword : (isWordChar c || isSpaceChar c) = true := by
      simpa using List.of_mem_filter hc2
    have hc3 := List.mem_of_mem_filter hc2
    have hc4 := mem_stripEdition hc3
    have hc5 := mem_stripEditionYear hc4
    have hc6 := mem_removeBracketsAux _ hc5
    have hc7 := mem_removeParensAux _ hc6
    unfold lowerChars at hc7
    rcases List.mem_map.mp hc7 with ⟨d, _, hd⟩
    have hfix : c.toLower = c := by rw [← hd]; exact toLower_toLower d
    rcases Bool.or_eq_true _ _ |>.mp hword with hw | hsp
    · exact ⟨Or.inl hw, hfix⟩
    · rw [hns] at hsp; cases hsp

theorem headNotBlank_collapseWsAux_true : ∀ (l : List Char), headNotBlank (collapseWsAux l true) := by
  intro l
  induction l with
  | nil => trivial
  | cons d rest ih =>
    unfold collapseWsAux
    by_cases hd : isSpaceChar d = true
    · rw [if_pos hd, if_pos rfl]
      exact ih
    · rw [if_neg hd]
      unfold headNotBlank
      simpa using hd

theorem noAdjacentBlanks_collapseWsAux : ∀ (l : List Char) (b : Bool),
    NoAdjacentBlanks (collapseWsAux l b) := by
  intro l
  induction l with
  | nil => intro b; exact List.chain'_nil
  | cons d rest ih =>
    intro b
    unfold collapseWsAux
    by_cases hd : isSpaceChar d = true
    · rw [if_pos hd]
      cases b with
      | true => rw [if_pos rfl]; exact ih true
      | false =>
        rw [if_neg (by simp)]
        rw [NoAdjacentBlanks, List.chain'_cons']
        constructor
        · intro y hy
          have hh := headNotBlank_collapseWsAux_true rest
          cases hcw : collapseWsAux rest true with
          | nil => rw [hcw] at hy; cases hy
          | cons z zs =>
            rw [hcw] at hy
            simp only [List.head?_cons, Option.mem_def, Option.some.injEq] at hy
            subst hy
            rw [hcw] at hh
            unfold headNotBlank at hh
            intro hcontra
            rw [hh] at hcontra
            exact absurd hcontra.2 (by simp)
        · exact ih true
    · rw [if_neg hd]
      rw [NoAdjacentBlanks, List.chain'_cons']
      constructor
      · intro y _
        intro hcontra
        exact hd hcontra.1
      · exact ih false

theorem headNotBlank_dropWhile (l : List Char) :
    headNotBlank (l.dropWhile isSpaceChar) := by
  induction l with
  | nil => trivial
  | cons d rest ih =>
    rw [List.dropWhile_cons]
    by_cases hd : isSpaceChar d = true
    · rw [if_pos hd]; exact ih
    · rw [if_neg hd]
      unfold headNotBlank
      simpa using hd

theorem headNotBlank_of_prefix {l m : List Char} (hp : l <+: m) (hm : headNotBlank m) :
    headNotBlank l := by
  cases l with
  | nil => trivial
  | cons c rest =>
    rcases hp with ⟨t, ht⟩
    rw [← ht] at hm
    exact hm

theorem trimChars_prefixOf (l : List Char) :
    trimChars l <+: l.dropWhile isSpaceChar := by
  unfold trimChars
  rw [← List.reverse_suffix]
  simpa using List.dropWhile_suffix isSpaceChar

theorem headNotBlank_trimChars (l : List Char) : headNotBlank (trimChars l) :=
  headNotBlank_of_prefix
    ((trimChars_prefixOf l).trans (List.prefix_refl _))
    (headNotBlank_dropWhile l)

theorem lastNotBlank_trimChars (l : List Char) : lastNotBlank (trimChars l) := by
  unfold lastNotBlank trimChars
  rw [List.reverse_reverse]
  exact headNotBlank_dropWhile _

theorem noAdjacentBlanks_trimChars {l : List Char} (h : NoAdjacentBlanks l) :
    NoAdjacentBlanks (trimChars l) := by
  have h1 : trimChars l <+: l.dropWhile isSpaceChar := trimChars_prefixOf l
  have h2 : l.dropWhile isSpaceChar <:+ l := List.dropWhile_suffix _
  exact h.infix (h1.isInfix.trans h2.isInfix)

theorem normalizeArtist_canonical (s : String) : canonicalChars (normalizeArtist s).data := by
  refine ⟨goodChar_of_normalizeArtist s, ?_, ?_, ?_⟩
  · show NoAdjacentBlanks (trimChars (collapseWs _))
    exact noAdjacentBlanks_trimChars (noAdjacentBlanks_collapseWsAux _ false)
  · exact headNotBlank_trimChars _
  · exact lastNotBlank_trimChars _

theorem normalizeAlbum_canonical (t : String) : canonicalChars (normalizeAlbum t).data := by
  refine ⟨goodChar_of_normalizeAlbum t, ?_, ?_, ?_⟩
  · show NoAdjacentBlanks (trimChars (collapseWs _))
    exact noAdjacentBlanks_trimChars (noAdjacentBlanks_collapseWsAux _ false)
  · exact headNotBlank_trimChars _
  · exact lastNotBlank_trimChars _

theorem not_mem_of_canonical {l : List Char} (h : canonicalChars l) {d : Char}
    (hd1 : isWordChar d = false) (hd2 : d ≠ ' ') : d ∉ l := by
  intro hmem
  rcases (h.1 d hmem).1 with hw | hb
  · rw [hd1] at hw; cases hw
  · exact hd2 hb

/-! ### Second normalization passes are the identity on canonical strings -/

theorem lowerChars_id {l : List Char} (h : ∀ c ∈ l, c.toLower = c) : lowerChars l = l := by
  unfold lowerChars
  calc l.map Char.toLower = l.map id := List.map_congr_left h
    _ = l := List.map_id l

theorem parenMatchAtHead_none {l : List Char} (h : '(' ∉ l) : parenMatchAtHead l = none := by
  unfold parenMatchAtHead
  split
  · next rest heq =>
    exfalso
    apply h
    have : '(' ∈ l.dropWhile isSpaceChar := by rw [heq]; simp
    exact (List.dropWhile_suffix isSpaceChar).sublist.mem this
  · rfl

theorem removeParensAux_id : ∀ (fuel : Nat) (l : List Char), '(' ∉ l →
    removeParensAux fuel l = l := by
  intro fuel
  induction fuel with
  | zero => intro l _; rfl
  | succ fuel ih =>
    intro l h
    unfold removeParensAux
    rw [parenMatchAtHead_none h]
    cases l with
    | nil => rfl
    | cons c rest =>
      have hnr : '(' ∉ rest := fun hm => h (List.mem_cons_of_mem c hm)
      show c :: removeParensAux fuel rest = c :: rest
      rw [ih rest hnr]

theorem bracketMatchAtHead_none {l : List Char} (h : '[' ∉ l) : bracketMatchAtHead l = none := by
  unfold bracketMatchAtHead
  split
  · next rest heq =>
    exfalso
    apply h
    have : '[' ∈ l.dropWhile isSpaceChar := by rw [heq]; simp
    exact (List.dropWhile_suffix isSpaceChar).sublist.mem this
  · rfl

theorem removeBracketsAux_id : ∀ (fuel : Nat) (l : List Char), '[' ∉ l →
    removeBracketsAux fuel l = l := by
  intro fuel
  induction fuel with
  | zero => intro l _; rfl
  | succ fuel ih =>
    intro l h
    unfold removeBracketsAux
    rw [bracketMatchAtHead_none h]
    cases l with
    | nil => rfl
    | cons c rest =>
      have hnr : '[' ∉ rest := fun hm => h (List.mem_cons_of_mem c hm)
      show c :: removeBracketsAux fuel rest = c :: rest
      rw [ih rest hnr]

theorem editionYearMatchAt_false {l : List Char} (h : '-' ∉ l) :
    editionYearMatchAt l = false := by
  unfold editionYearMatchAt
  split
  · next r1 heq =>
    exfalso
    apply h
    have : '-' ∈ l.dropWhile isSpaceChar := by rw [heq]; simp
    exact (List.dropWhile_suffix isSpaceChar).sublist.mem this
  · rfl

theorem stripEditionYear_id : ∀ (l : List Char), '-' ∉ l → stripEditionYear l = l := by
  intro l
  induction l with
  | nil => intro _; rfl
  | cons c rest ih =>
    intro h
    unfold stripEditionYear
    rw [editionYearMatchAt_false h]
    simp [ih (fun hm => h (List.mem_cons_of_mem c hm))]

theorem editionMatchAt_false {l : List Char} (h : '-' ∉ l) :
    editionMatchAt l = false := by
  unfold editionMatchAt
  split
  · next r1 heq =>
    exfalso
    apply h
    have : '-' ∈ l.dropWhile isSpaceChar := by rw [heq]; simp
    exact (List.dropWhile_suffix isSpaceChar).sublist.mem this
  · rfl

theorem stripEdition_id : ∀ (l : List Char), '-' ∉ l → stripEdition l = l := by
  intro l
  induction l with
  | nil => intro _; rfl
  | cons c rest ih =>
    intro h
    unfold stripEdition
    rw [editionMatchAt_false h]
    simp [ih (fun hm => h (List.mem_cons_of_mem c hm))]

theorem removeNonWordSpace_id {l : List Char} (h : ∀ c ∈ l, goodChar c) :
    removeNonWordSpace l = l := by
  unfold removeNonWordSpace
  rw [List.filter_eq_self]
  intro c hc
  rcases (h c hc).1 with hw | hb
  · simp [hw]
  · subst hb; decide

theorem collapseWsAux_id : ∀ (l : List Char),
    (∀ c ∈ l, isSpaceChar c = true → c = ' ') → NoAdjacentBlanks l →
      (collapseWsAux l false = l ∧ (headNotBlank l → collapseWsAux l true = l)) := by
  intro l
  induction l with
  | nil => intro _ _; exact ⟨rfl, fun _ => rfl⟩
  | cons c rest ih =>
    intro hsp hnd
    have hsp' : ∀ d ∈ rest, isSpaceChar d = true → d = ' ' :=
      fun d hd => hsp d (List.mem_cons_of_mem c hd)
    have hnd' : NoAdjacentBlanks rest := hnd.tail
    by_cases hc : isSpaceChar c = true
    · have hcb : c = ' ' := hsp c (List.mem_cons_self c rest) hc
      have hhead : headNotBlank rest := by
        cases rest with
        | nil => trivial
        | cons d ds =>
          have hR := (List.chain'_cons'.mp hnd).1 d (by simp)
          unfold headNotBlank
          by_contra hne
          exact hR ⟨hc, by simpa using hne⟩
      constructor
      · unfold collapseWsAux
        rw [if_pos hc, if_neg (by simp)]
        rw [(ih hsp' hnd').2 hhead, hcb]
      · intro hh
        unfold headNotBlank at hh
        rw [hh] at hc
        cases hc
    · constructor
      · unfold collapseWsAux
        rw [if_neg hc, (ih hsp' hnd').1]
      · intro _
        unfold collapseWsAux
        rw [if_neg hc, (ih hsp' hnd').1]

theorem trimChars_id {l : List Char} (h1 : headNotBlank l) (h2 : lastNotBlank l) :
    trimChars l = l := by
  have hdw : ∀ (m : List Char), headNotBlank m → m.dropWhile isSpaceChar = m := by
    intro m hm
    cases m with
    | nil => rfl
    | cons c rest =>
      rw [List.dropWhile_cons, if_neg]
      unfold headNotBlank at hm
      simp [hm]
  unfold trimChars
  rw [hdw l h1, hdw l.reverse h2, List.reverse_reverse]

theorem canonical_spaces_blank {l : List Char} (h : ∀ c ∈ l, goodChar c) :
    ∀ c ∈ l, isSpaceChar c = true → c = ' ' :=
  fun c hc hsp => space_eq_blank (h c hc) hsp

theorem stripLeadingThe_id {l : List Char} (hgood : ∀ c ∈ l, goodChar c)
    (hp : ("the ".data.isPrefixOf l) = false) : stripLeadingThe l = l := by
  unfold stripLeadingThe
  split
  · next c rest =>
    by_cases hc : isSpaceChar c = true
    · exfalso
      have hcb : c = ' ' := space_eq_blank (hgood c (by simp)) hc
      subst hcb
      have hpre : ("the ".data) <+: ('t' :: 'h' :: 'e' :: ' ' :: rest) := by
        refine ⟨rest, ?_⟩
        rfl
      rw [(List.isPrefixOf_iff_prefix).mpr hpre] at hp
      cases hp
    · rw [if_neg hc]
  · rfl

theorem normalizeAlbum_id_of_canonical {l : List Char} (h : canonicalChars l) :
    normalizeAlbum ⟨l⟩ = ⟨l⟩ := by
  obtain ⟨hgood, hnd, hhead, hlast⟩ := h
  have hparen : '(' ∉ l := not_mem_of_canonical ⟨hgood, hnd, hhead, hlast⟩ (by decide) (by decide)
  have hbracket : '[' ∉ l := not_mem_of_canonical ⟨hgood, hnd, hhead, hlast⟩ (by decide) (by decide)
  have hdash : '-' ∉ l := not_mem_of_canonical ⟨hgood, hnd, hhead, hlast⟩ (by decide) (by decide)
  show (⟨trimChars (collapseWs (removeNonWordSpace (stripEdition (stripEditionYear
    (removeBrackets (removeParens (lowerChars l)))))))⟩ : String) = ⟨l⟩
  rw [lowerChars_id (fun c hc => (hgood c hc).2)]
  unfold removeParens
  rw [removeParensAux_id l.length l hparen]
  unfold removeBrackets
  rw [removeBracketsAux_id l.length l hbracket]
  rw [stripEditionYear_id l hdash, stripEdition_id l hdash,
    removeNonWordSpace_id hgood]
  unfold collapseWs
  rw [(collapseWsAux_id l (canonical_spaces_blank hgood) hnd).1,
    trimChars_id hhead hlast]

theorem normalizeArtist_id_of_canonical {l : List Char} (h : canonicalChars l)
    (hp : ("the ".data.isPrefixOf l) = false) :
    normalizeArtist ⟨l⟩ = ⟨l⟩ := by
  obtain ⟨hgood, hnd, hhead, hlast⟩ := h
  show (⟨trimChars (collapseWs (removeNonWordSpace (stripLeadingThe (lowerChars l))))⟩ :
      String) = ⟨l⟩
  rw [lowerChars_id (fun c hc => (hgood c hc).2),
    stripLeadingThe_id hgood hp,
    removeNonWordSpace_id hgood]
  unfold collapseWs
  rw [(collapseWsAux_id l (canonical_spaces_blank hgood) hnd).1,
    trimChars_id hhead hlast]

/-- C4 counterexample: `normalizeArtist` is not idempotent.  For the artist
name "The The Band" the first pass strips only the first leading "The",
yielding "the band", and a second pass strips again, yielding "band". -/
theorem c4_counterexample :
    normalizeArtist (normalizeArtist "The The Band") ≠ normalizeArtist "The The Band" ∧
    normalizeArtist "The The Band" = "the band" ∧
    normalizeArtist (normalizeArtist "The The Band") = "band" := by
  refine ⟨?_, ?_, ?_⟩ <;> decide

/-- C4 (amended): `normalizeAlbum` is idempotent on every string, and
`normalizeArtist` is idempotent on every string whose normalized form does not
begin with "the " (when it does, a second pass strips that leading article
again, as the counterexample shows). -/
theorem c4_amended_normalize_idempotent :
    (∀ x : String, normalizeAlbum (normalizeAlbum x) = normalizeAlbum x) ∧
    (∀ x : String, ("the ".data.isPrefixOf (normalizeArtist x).data) = false →
      normalizeArtist (normalizeArtist x) = normalizeArtist x) := by
  constructor
  · intro x
    exact normalizeAlbum_id_of_canonical (normalizeAlbum_canonical x)
  · intro x hp
    exact normalizeArtist_id_of_canonical (normalizeArtist_canonical x) hp

/-- Witness for the amended C4 at a concrete artist name. -/
theorem c4_amended_normalize_idempotent_witness :
    ("the ".data.isPrefixOf (normalizeArtist "Radiohead").data) = false ∧
    normalizeArtist (normalizeArtist "Radiohead") = normalizeArtist "Radiohead" :=
  ⟨by decide, c4_amended_normalize_idempotent.2 "Radiohead" (by decide)⟩

/-! ### Deduplication by normalized pair -/

theorem string_data_inj {a b : String} (h : a.data = b.data) : a = b := by
  cases a
  cases b
  exact congrArg String.mk h

theorem append_bar_inj : ∀ {a c : List Char} {b d : List Char}, '|' ∉ a → '|' ∉ c →
    a ++ '|' :: b = c ++ '|' :: d → a = c ∧ b = d := by
  intro a
  induction a with
  | nil =>
    intro c b d _ hc h
    cases c with
    | nil =>
      simp only [List.nil_append] at h
      injection h with _ h2
      exact ⟨rfl, h2⟩
    | cons e c' =>
      simp only [List.nil_append, List.cons_append] at h
      injection h with h1 _
      exact absurd (show '|' ∈ e :: c' by rw [← h1]; exact List.mem_cons_self _ _) hc
  | cons x a' ih =>
    intro c b d ha hc h
    cases c with
    | nil =>
      simp only [List.cons_append, List.nil_append] at h
      injection h with h1 _
      exact absurd (show '|' ∈ x :: a' by rw [h1]; exact List.mem_cons_self _ _) ha
    | cons e c' =>
      simp only [List.cons_append] at h
      injection h with h1 h2
      have ha' : '|' ∉ a' := fun hm => ha (List.mem_cons_of_mem x hm)
      have hc' : '|' ∉ c' := fun hm => hc (List.mem_cons_of_mem e hm)
      obtain ⟨hac, hbd⟩ := ih ha' hc' h2
      exact ⟨by rw [h1, hac], hbd⟩

theorem bar_not_mem_normalizeArtist (s : String) : '|' ∉ (normalizeArtist s).data :=
  not_mem_of_canonical (normalizeArtist_canonical s) (by decide) (by decide)

theorem bar_not_mem_normalizeAlbum (t : String) : '|' ∉ (normalizeAlbum t).data :=
  not_mem_of_canonical (normalizeAlbum_canonical t) (by decide) (by decide)

theorem trackKey_data (artist album : String) :
    (trackKey artist album).data =
      (normalizeArtist artist).data ++ '|' :: (normalizeAlbum album).data := by
  unfold trackKey
  rw [String.data_append, String.data_append, List.append_assoc]
  rfl

theorem trackKey_eq_iff_samePair (t u : Track) :
    trackKey t.artist t.album = trackKey u.artist u.album ↔ samePair t u := by
  constructor
  · intro h
    have hd := congrArg String.data h
    rw [trackKey_data, trackKey_data] at hd
    obtain ⟨h1, h2⟩ := append_bar_inj (bar_not_mem_normalizeArtist t.artist)
      (bar_not_mem_normalizeArtist u.artist) hd
    exact ⟨string_data_inj h1, string_data_inj h2⟩
  · intro ⟨h1, h2⟩
    unfold trackKey
    rw [h1, h2]

theorem extractUniqueAlbumsAux_eq :
    ∀ (n : Nat) (ts : List Track) (seen : List String), ts.length ≤ n →
      extractUniqueAlbumsAux ts seen =
        dedupByNormalizedPair
          (ts.filter (fun t => !(decide (trackKey t.artist t.album ∈ seen)))) := by
  intro n
  induction n with
  | zero =>
    intro ts seen hlen
    have : ts = [] := List.length_eq_zero.mp (Nat.le_zero.mp hlen)
    subst this
    simp [extractUniqueAlbumsAux, dedupByNormalizedPair]
  | succ n ih =>
    intro ts seen hlen
    cases ts with
    | nil => simp [extractUniqueAlbumsAux, dedupByNormalizedPair]
    | cons t ts' =>
      simp only [List.length_cons, Nat.succ_le_succ_iff] at hlen
      unfold extractUniqueAlbumsAux
      by_cases hk : trackKey t.artist t.album ∈ seen
      · rw [if_pos hk]
        rw [List.filter_cons_of_neg (by simp [hk])]
        exact ih ts' seen hlen
      · rw [if_neg hk]
        rw [List.filter_cons_of_pos (by simp [hk])]
        unfold dedupByNormalizedPair
        rw [List.filter_filter]
        rw [ih ts' (trackKey t.artist t.album :: seen) hlen]
        congr 1
        congr 1
        apply List.filter_congr
        intro u _
        by_cases hsp : samePair t u
        · have hkey : trackKey u.artist u.album = trackKey t.artist t.album :=
            (trackKey_eq_iff_samePair u t).mpr ⟨hsp.1.symm, hsp.2.symm⟩
          simp [hsp, hkey]
        · have hkey : trackKey u.artist u.album ≠ trackKey t.artist t.album := by
            intro he
            exact hsp (let p := (trackKey_eq_iff_samePair u t).mp he
              ⟨p.1.symm, p.2.symm⟩)
          simp [hsp, hkey]

/-- C8: `extractUniqueAlbums` returns one album per distinct normalized
(artist, album) pair — it equals the specification-side recursion that keeps
the first track of each normalized pair in first-seen order, projects the
first occurrence's original display strings, and drops every track whose
normalized pair equals an earlier track's pair. -/
theorem c8_extract_unique_albums (tracks : List Track) :
    extractUniqueAlbums tracks = dedupByNormalizedPair tracks := by
  unfold extractUniqueAlbums
  rw [extractUniqueAlbumsAux_eq tracks.length tracks [] le_rfl]
  have hall : tracks.filter
      (fun t => !(decide (trackKey t.artist t.album ∈ ([] : List String)))) = tracks := by
    rw [List.filter_eq_self]
    intro t _
    simp
  rw [hall]

/-! ### The acquisition timeline never fails on unparseable dates -/

theorem jsMonthKey_nan {s : String} (h : parseIsoDate s = none) :
    jsMonthKey s = "NaN-NaN" := by
  unfold jsMonthKey
  rw [h]

theorem mem_keys_mapSet_self (m : List (String × Nat)) (k : String) (v : Nat) :
    k ∈ (mapSet m k v).map Prod.fst := by
  unfold mapSet
  simp

theorem mem_keys_mapSet_of_mem {m : List (String × Nat)} {k : String} (k' : String) (v : Nat)
    (h : k ∈ m.map Prod.fst) : k ∈ (mapSet m k' v).map Prod.fst := by
  by_cases hk : k = k'
  · subst hk
    exact mem_keys_mapSet_self m k v
  · unfold mapSet
    rcases List.mem_map.mp h with ⟨p, hp, hfst⟩
    simp only [List.map_cons, List.mem_cons]
    right
    exact List.mem_map.mpr ⟨p, List.mem_filter.mpr ⟨hp, by simp [hfst, hk]⟩, hfst⟩

theorem timeline_step_preserves {m : List (String × Nat)} {k : String}
    (r : DiscogsRelease) (h : k ∈ m.map Prod.fst) :
    k ∈ ((match r.dateAdded with
      | some s =>
        mapSet m (jsMonthKey s) (mapGetD m (jsMonthKey s) + 1)
      | none => m) : List (String × Nat)).map Prod.fst := by
  cases hda : r.dateAdded with
  | none => exact h
  | some s => exact mem_keys_mapSet_of_mem _ _ h

theorem mem_keys_timelineByMonth_foldl {k : String} :
    ∀ (l : List DiscogsRelease) (m : List (String × Nat)), k ∈ m.map Prod.fst →
      k ∈ (l.foldl (fun m r =>
        match r.dateAdded with
        | some s =>
          mapSet m (jsMonthKey s) (mapGetD m (jsMonthKey s) + 1)
        | none => m) m).map Prod.fst := by
  intro l
  induction l with
  | nil => intro m h; exact h
  | cons r rest ih =>
    intro m h
    rw [List.foldl_cons]
    exact ih _ (timeline_step_preserves r h)

theorem mem_keys_timelineByMonth {collection : List DiscogsRelease} {r : DiscogsRelease}
    {s : String} (hr : r ∈ collection) (hs : r.dateAdded = some s) :
    jsMonthKey s ∈ (timelineByMonth collection).map Prod.fst := by
  obtain ⟨l1, l2, hsplit⟩ := List.append_of_mem hr
  subst hsplit
  unfold timelineByMonth
  rw [List.foldl_append, List.foldl_cons]
  apply mem_keys_timelineByMonth_foldl
  rw [hs]
  exact mem_keys_mapSet_self _ _ _

theorem mem_insertSorted {x y : String} : ∀ {l : List String},
    x ∈ insertSorted y l ↔ x = y ∨ x ∈ l := by
  intro l
  induction l with
  | nil => simp [insertSorted]
  | cons z zs ih =>
    unfold insertSorted
    by_cases hle : charListLe y.data z.data = true
    · rw [if_pos hle]
      simp [or_comm, or_assoc, or_left_comm]
    · rw [if_neg hle]
      simp only [List.mem_cons, ih]
      tauto

theorem mem_sortStrings {x : String} : ∀ {l : List String}, x ∈ l → x ∈ sortStrings l := by
  intro l
  induction l with
  | nil => intro h; cases h
  | cons z zs ih =>
    intro h
    unfold sortStrings
    rw [List.foldr_cons]
    rcases List.mem_cons.mp h with h | h
    · exact mem_insertSorted.mpr (Or.inl h)
    · exact mem_insertSorted.mpr (Or.inr (ih h))

theorem timeline_fold_mem (tbm : List (String × Nat)) {m : String} :
    ∀ (months : List String) (acc : List TimelinePoint × Nat),
      (m ∈ months ∨ ∃ p ∈ acc.1, p.month = m) →
      ∃ p ∈ (months.foldl
        (fun (acc : List TimelinePoint × Nat) month =>
          let cumulative := acc.2 + mapGetD tbm month
          (acc.1 ++ [{ month := month, addedCount := mapGetD tbm month,
                       cumulativeTotal := cumulative }], cumulative))
        acc).1, p.month = m := by
  intro months
  induction months with
  | nil =>
    intro acc h
    rcases h with h | h
    · cases h
    · exact h
  | cons mo ms ih =>
    intro acc h
    rw [List.foldl_cons]
    apply ih
    rcases h with h | h
    · rcases List.mem_cons.mp h with h | h
      · subst h
        right
        exact ⟨TimelinePoint.mk m (mapGetD tbm m) (acc.2 + mapGetD tbm m), by simp, rfl⟩
      · exact Or.inl h
    · rcases h with ⟨p, hp, hm⟩
      right
      exact ⟨p, by simp [hp], hm⟩

/-- C5 (amended): the analysis handler never fails on a release whose
`dateAdded` does not parse to a date; `new Date` yields an invalid date whose
`getFullYear`/`getMonth` are `NaN`, so the release is silently counted under
the literal month bucket "NaN-NaN" of the acquisition timeline. -/
theorem c5_amended_nan_bucket (collection : List DiscogsRelease) (r : DiscogsRelease)
    (s : String) (hr : r ∈ collection) (hs : r.dateAdded = some s)
    (hbad : parseIsoDate s = none) :
    ∃ p ∈ collectionTimeline collection, p.month = "NaN-NaN" := by
  have hkey : ("NaN-NaN" : String) ∈ (timelineByMonth collection).map Prod.fst := by
    have := mem_keys_timelineByMonth hr hs
    rwa [jsMonthKey_nan hbad] at this
  simp only [collectionTimeline]
  apply timeline_fold_mem (timelineByMonth collection)
  left
  exact mem_sortStrings hkey

/-- C5 counterexample: for the one-release collection whose `dateAdded` is the
unparseable string "not-a-date", the timeline computation does not fail with a
data error — it returns an ordinary timeline whose single point is the
invalid month bucket "NaN-NaN" (the total function embeds a handler with no
failure path: the source wraps `new Date` in no validation or try/catch). -/
theorem c5_counterexample :
    parseIsoDate "not-a-date" = none ∧
    collectionTimeline [relBadDate] =
      [{ month := "NaN-NaN", addedCount := 1, cumulativeTotal := 1 }] := by
  constructor <;> decide

/-- Witness for the amended C5 at the concrete bad-date release. -/
theorem c5_amended_nan_bucket_witness :
    relBadDate ∈ [relBadDate] ∧ relBadDate.dateAdded = some "not-a-date" ∧
    parseIsoDate "not-a-date" = none ∧
    ∃ p ∈ collectionTimeline [relBadDate], p.month = "NaN-NaN" :=
  ⟨by decide, rfl, by decide,
    c5_amended_nan_bucket [relBadDate] relBadDate "not-a-date" (by decide) rfl (by decide)⟩

/-! ### The Venn counts of the analysis -/

theorem stringSimilarity_single_ne {a b : String} (ha : a.length = 1) (hb : b.length = 1)
    (hab : a ≠ b) : stringSimilarity a b = 0 := by
  have hd : levenshteinDistance a b = 1 := by
    obtain ⟨c, hc⟩ := List.length_eq_one.mp (show a.data.length = 1 from ha)
    obtain ⟨d, hdd⟩ := List.length_eq_one.mp (show b.data.length = 1 from hb)
    have hcd : ¬(d = c) := by
      intro he
      exact hab (string_data_inj (by rw [hc, hdd, he]))
    unfold levenshteinDistance
    rw [hc, hdd]
    have hr2 : List.range ([c].length + 1) = [0, 1] := rfl
    rw [hr2]
    simp only [List.foldl_cons, List.foldl_nil, levFullRow, levRowAux, if_neg hcd]
    simp
  rw [stringSimilarity_of_ne a b hab (by omega) (by omega), hd, ha, hb]
  norm_num

theorem sim_bbbc_bbbb : stringSimilarity "bbbc" "bbbb" = 3 / 4 := by
  have hd : levenshteinDistance "bbbc" "bbbb" = 1 := by decide
  rw [stringSimilarity_of_ne _ _ (by decide) (by decide) (by decide), hd]
  have l1 : ("bbbc" : String).length = 4 := rfl
  have l2 : ("bbbb" : String).length = 4 := rfl
  rw [l1, l2]
  norm_num

/-- C10: the Venn-diagram field `onlyOwned` is not a set size and can be
negative: it is `collection.length` minus the number of listened candidates
whose match is owned, and two distinct listened candidates can both match the
same single owned release.  At the concrete one-release collection with two
listened candidates ("bbbb" exactly and "bbbc" fuzzily matching the same
release) it equals -1. -/
theorem c10_only_owned_negative :
    (analyzeCollection c10Collection [] c10Recent).onlyOwned = -1 ∧
    ∃ (collection : List DiscogsRelease) (topTracks recentTracks : List Track),
      (analyzeCollection collection topTracks recentTracks).onlyOwned < 0 := by
  have hA1 : normalizeArtist "aa" = "aa" := by decide
  have hB1 : normalizeAlbum "bbbb" = "bbbb" := by decide
  have hB2 : normalizeAlbum "bbbc" = "bbbc" := by decide
  have hextract : extractUniqueAlbums ([] ++ c10Recent) =
      [{ name := "bbbb", artist := "aa" }, { name := "bbbc", artist := "aa" }] := by decide
  have ho1 : isOwned (matchAlbumToCollection { name := "bbbb", artist := "aa" }
      c10Collection) = true := by
    norm_num [matchAlbumToCollection, bestStateOf, c10Collection, matchStep, releaseScores,
      hA1, hB1, stringSimilarity_self, determineMatchType, isOwned]
    simp
  have ho2 : isOwned (matchAlbumToCollection { name := "bbbc", artist := "aa" }
      c10Collection) = true := by
    norm_num [matchAlbumToCollection, bestStateOf, c10Collection, matchStep, releaseScores,
      hA1, hB1, hB2, stringSimilarity_self, sim_bbbc_bbbb, determineMatchType, isOwned]
    simp
  have hmain : (analyzeCollection c10Collection [] c10Recent).onlyOwned = -1 := by
    simp only [analyzeCollection]
    rw [hextract]
    simp only [matchAlbumsToCollection, List.map_cons, List.map_nil]
    simp only [List.filter, ho1, ho2]
    norm_num [c10Collection]
  exact ⟨hmain, c10Collection, [], c10Recent, by rw [hmain]; norm_num⟩

/-! ### The alignment score -/

theorem analyzeCollection_alignmentScore_def (c : List DiscogsRelease)
    (t r : List Track) :
    (analyzeCollection c t r).alignmentScore =
      (if 0 < (analyzeCollection c t r).ownedAndListened +
          (analyzeCollection c t r).ownedNotListened +
          (analyzeCollection c t r).listenedNotOwned
       then jsRound ((((analyzeCollection c t r).ownedAndListened : ℚ) /
         (((analyzeCollection c t r).ownedAndListened +
           (analyzeCollection c t r).ownedNotListened +
           (analyzeCollection c t r).listenedNotOwned : ℕ) : ℚ)) * 100)
       else 0) := rfl

/-- C9: the reported `alignmentScore` is
`round(100 * ownedAndListened / (ownedAndListened + ownedNotListened + listenedNotOwned))`
whenever that denominator is positive, is 0 when the denominator is 0, and in
particular the counts (3, 1, 1) give exactly 60. -/
theorem c9_alignment_score (c : List DiscogsRelease) (t r : List Track) :
    (0 < (analyzeCollection c t r).ownedAndListened +
        (analyzeCollection c t r).ownedNotListened +
        (analyzeCollection c t r).listenedNotOwned →
      (analyzeCollection c t r).alignmentScore =
        jsRound ((100 * ((analyzeCollection c t r).ownedAndListened : ℚ)) /
          (((analyzeCollection c t r).ownedAndListened : ℚ) +
            ((analyzeCollection c t r).ownedNotListened : ℚ) +
            ((analyzeCollection c t r).listenedNotOwned : ℚ)))) ∧
    ((analyzeCollection c t r).ownedAndListened +
        (analyzeCollection c t r).ownedNotListened +
        (analyzeCollection c t r).listenedNotOwned = 0 →
      (analyzeCollection c t r).alignmentScore = 0) ∧
    ((analyzeCollection c t r).ownedAndListened = 3 →
      (analyzeCollection c t r).ownedNotListened = 1 →
      (analyzeCollection c t r).listenedNotOwned = 1 →
      (analyzeCollection c t r).alignmentScore = 60) := by
  refine ⟨?_, ?_, ?_⟩
  · intro hpos
    rw [analyzeCollection_alignmentScore_def, if_pos hpos]
    congr 1
    push_cast
    ring
  · intro h0
    rw [analyzeCollection_alignmentScore_def, if_neg (by omega)]
  · intro h3 h4 h5
    rw [analyzeCollection_alignmentScore_def, h3, h4, h5]
    norm_num [jsRound]

/-- Witness for C9 at a concrete four-release scenario with counts (3, 1, 1). -/
theorem c9_alignment_score_witness :
    (analyzeCollection c9Collection [] c9Recent).ownedAndListened = 3 ∧
    (analyzeCollection c9Collection [] c9Recent).ownedNotListened = 1 ∧
    (analyzeCollection c9Collection [] c9Recent).listenedNotOwned = 1 ∧
    (analyzeCollection c9Collection [] c9Recent).alignmentScore = 60 := by
  have na1 : normalizeArtist "a" = "a" := by decide
  have na2 : normalizeArtist "c" = "c" := by decide
  have na3 : normalizeArtist "e" = "e" := by decide
  have na4 : normalizeArtist "g" = "g" := by decide
  have na5 : normalizeArtist "i" = "i" := by decide
  have nb1 : normalizeAlbum "b" = "b" := by decide
  have nb2 : normalizeAlbum "d" = "d" := by decide
  have nb3 : normalizeAlbum "f" = "f" := by decide
  have nb4 : normalizeAlbum "h" = "h" := by decide
  have nb5 : normalizeAlbum "k" = "k" := by decide
  have sac : stringSimilarity "a" "c" = 0 := stringSimilarity_single_ne rfl rfl (by decide)
  have sae : stringSimilarity "a" "e" = 0 := stringSimilarity_single_ne rfl rfl (by decide)
  have sag : stringSimilarity "a" "g" = 0 := stringSimilarity_single_ne rfl rfl (by decide)
  have sca : stringSimilarity "c" "a" = 0 := stringSimilarity_single_ne rfl rfl (by decide)
  have sce : stringSimilarity "c" "e" = 0 := stringSimilarity_single_ne rfl rfl (by decide)
  have scg : stringSimilarity "c" "g" = 0 := stringSimilarity_single_ne rfl rfl (by decide)
  have sea : stringSimilarity "e" "a" = 0 := stringSimilarity_single_ne rfl rfl (by decide)
  have sec : stringSimilarity "e" "c" = 0 := stringSimilarity_single_ne rfl rfl (by decide)
  have seg : stringSimilarity "e" "g" = 0 := stringSimilarity_single_ne rfl rfl (by decide)
  have sia : stringSimilarity "i" "a" = 0 := stringSimilarity_single_ne rfl rfl (by decide)
  have sic : stringSimilarity "i" "c" = 0 := stringSimilarity_single_ne rfl rfl (by decide)
  have sie : stringSimilarity "i" "e" = 0 := stringSimilarity_single_ne rfl rfl (by decide)
  have sig : stringSimilarity "i" "g" = 0 := stringSimilarity_single_ne rfl rfl (by decide)
  have sbd : stringSimilarity "b" "d" = 0 := stringSimilarity_single_ne rfl rfl (by decide)
  have sbf : stringSimilarity "b" "f" = 0 := stringSimilarity_single_ne rfl rfl (by decide)
  have sbh : stringSimilarity "b" "h" = 0 := stringSimilarity_single_ne rfl rfl (by decide)
  have sdb : stringSimilarity "d" "b" = 0 := stringSimilarity_single_ne rfl rfl (by decide)
  have sdf : stringSimilarity "d" "f" = 0 := stringSimilarity_single_ne rfl rfl (by decide)
  have sdh : stringSimilarity "d" "h" = 0 := stringSimilarity_single_ne rfl rfl (by decide)
  have sfb : stringSimilarity "f" "b" = 0 := stringSimilarity_single_ne rfl rfl (by decide)
  have sfd : stringSimilarity "f" "d" = 0 := stringSimilarity_single_ne rfl rfl (by decide)
  have sfh : stringSimilarity "f" "h" = 0 := stringSimilarity_single_ne rfl rfl (by decide)
  have skb : stringSimilarity "k" "b" = 0 := stringSimilarity_single_ne rfl rfl (by decide)
  have skd : stringSimilarity "k" "d" = 0 := stringSimilarity_single_ne rfl rfl (by decide)
  have skf : stringSimilarity "k" "f" = 0 := stringSimilarity_single_ne rfl rfl (by decide)
  have skh : stringSimilarity "k" "h" = 0 := stringSimilarity_single_ne rfl rfl (by decide)
  have hextract : extractUniqueAlbums ([] ++ c9Recent) =
      [{ name := "b", artist := "a" }, { name := "d", artist := "c" },
       { name := "f", artist := "e" }, { name := "k", artist := "i" }] := by decide
  have hm1 : isOwned (matchAlbumToCollection { name := "b", artist := "a" }
      c9Collection) = true := by
    norm_num [matchAlbumToCollection, bestStateOf, c9Collection, matchStep, releaseScores,
      na1, na2, na3, na4, nb1, nb2, nb3, nb4, sac, sae, sag, sbd, sbf, sbh,
      stringSimilarity_self, determineMatchType, isOwned]
    simp
  have hm2 : isOwned (matchAlbumToCollection { name := "d", artist := "c" }
      c9Collection) = true := by
    norm_num [matchAlbumToCollection, bestStateOf, c9Collection, matchStep, releaseScores,
      na1, na2, na3, na4, nb1, nb2, nb3, nb4, sca, sce, scg, sdb, sdf, sdh,
      stringSimilarity_self, determineMatchType, isOwned]
    simp
  have hm3 : isOwned (matchAlbumToCollection { name := "f", artist := "e" }
      c9Collection) = true := by
    norm_num [matchAlbumToCollection, bestStateOf, c9Collection, matchStep, releaseScores,
      na1, na2, na3, na4, nb1, nb2, nb3, nb4, sea, sec, seg, sfb, sfd, sfh,
      stringSimilarity_self, determineMatchType, isOwned]
    simp
  have hm4 : isOwned (matchAlbumToCollection { name := "k", artist := "i" }
      c9Collection) = false := by
    norm_num [matchAlbumToCollection, bestStateOf, c9Collection, matchStep, releaseScores,
      na1, na2, na3, na4, na5, nb1, nb2, nb3, nb4, nb5, sia, sic, sie, sig,
      skb, skd, skf, skh, determineMatchType, isOwned]
    simp
  have ho : (analyzeCollection c9Collection [] c9Recent).ownedAndListened = 3 := by decide
  have hn : (analyzeCollection c9Collection [] c9Recent).ownedNotListened = 1 := by decide
  have hln : (analyzeCollection c9Collection [] c9Recent).listenedNotOwned = 1 := by
    simp only [analyzeCollection]
    rw [hextract]
    simp only [matchAlbumsToCollection, List.map_cons, List.map_nil]
    simp only [List.filter, hm1, hm2, hm3, hm4]
    rfl
  exact ⟨ho, hn, hln, (c9_alignment_score c9Collection [] c9Recent).2.2 ho hn hln⟩
